import Mathlib

/-!
Shallow embedding of the gramschmidt-rs QR-factorization library.

Matrices are modelled as total functions over natural-number indices
(`Mat`), with explicit dimensions carried alongside; vectors likewise.
The engines (`ClassicalGramSchmidt` in cgs.rs, `ReorthogonalizedGramSchmidt`
in cgs2.rs, `ModifiedGramSchmidt` in mgs.rs) and the row-based trait
implementations (trait_impls.rs, parallel.rs) are translated from the Rust
source.  The f64 scalar type is modelled by an arbitrary field together
with an explicit square-root parameter `sqrt : α → α`; for concrete
evaluations over ℚ we use `ratSqrt` (exact on perfect squares, inexact
elsewhere, mirroring the fact that floating-point normalization is exact on
inputs such as unit vectors and inexact in general), and for real-valued
statements we instantiate `sqrt := Real.sqrt`.  Floating-point rounding
itself is outside the model; all statements proved here are exact-arithmetic
statements about the algorithms as written.

BLAS calls (dgemv, daxpy, dnrm2) are translated by their CBLAS semantics at
the logical-index level: each call's target entries and update ranges are
reproduced exactly as the offsets, strides and counts in the source dictate
(e.g. the daxpy in cgs2.rs adds `n_rows` scratch-vector entries into the
column of R, not just the `i` entries above the diagonal).  The one place
where the source addresses the input matrix through raw flat memory . the
`a_column` slices fed to dgemv . is kept memory-faithful through `aFlat` and
`aColF`, including the fact that for a column-major contiguous input the
slice starts at flat offset `i` with increment 1.
-/

set_option linter.unusedSectionVars false

namespace GS

abbrev Vec (α : Type) := ℕ → α

abbrev Mat (α : Type) := ℕ → ℕ → α

variable {α : Type} [Field α]

/-- Dot product over the first `m` entries, as computed by BLAS `ddot` or
`ndarray`'s `dot` on length-`m` views. -/
def dotN (m : ℕ) (v w : Vec α) : α :=
  Finset.sum (Finset.range m) fun k => v k * w k

/-- Sum of squares of the first `m` entries; `dnrm2` returns its square root. -/
def sumSq (m : ℕ) (v : Vec α) : α := dotN m v v

/-- cblas::Layout. -/
inductive Layout : Type where
  | rowMajor : Layout
  | colMajor : Layout
deriving DecidableEq

/-- The two panics the engines can raise before any numeric work:
`Array not contiguous!` and the `assert_eq!` on shapes. -/
inductive GSError : Type where
  | nonContiguous : GSError
  | shapeMismatch : GSError
deriving DecidableEq

/-- An input `ndarray` matrix: logical entries plus the contiguity of its
backing storage.  `contig = some .rowMajor` models `a.as_slice()` returning
`Some`; `contig = some .colMajor` models only `a.as_slice_memory_order()`
returning `Some`; `contig = none` models a non-contiguous view. -/
structure MatInput (α : Type) where
  rows : ℕ
  cols : ℕ
  entry : Mat α
  contig : Option Layout

/-- The flat backing slice of the input, as `as_slice_memory_order` exposes
it: row-major flattening unless the storage is column-major. -/
def aFlat (a : MatInput α) : ℕ → α := fun t =>
  match a.contig with
  | some .colMajor => a.entry (t % a.rows) (t / a.rows)
  | _ => a.entry (t / a.cols) (t % a.cols)

/-- The `a_column` slice handed to dgemv for column `i`: the flat slice
starting at offset `i` (the source computes this offset for both contiguity
branches, because its `a_layout` variable is `RowMajor` in both), read with
increment `inc`. -/
def aColF (a : MatInput α) (inc i : ℕ) : Vec α := fun k => aFlat a (i + k * inc)

/-- Overwrite entries `k < m` of column `i` (a `column_mut` assignment or a
dgemv writing a strided column with `beta = 0`). -/
def updCol (q : Mat α) (i m : ℕ) (f : Vec α) : Mat α :=
  fun k j => if j = i ∧ k < m then f k else q k j

/-- Overwrite a single entry. -/
def updEntry (r : Mat α) (i j : ℕ) (x : α) : Mat α :=
  fun k l => if k = i ∧ l = j then x else r k l

/-- Overwrite entries `j < cnt` of a vector (a dgemv writing into the work
vector with `beta = 0`). -/
def updVSeg (w : Vec α) (cnt : ℕ) (f : ℕ → α) : Vec α :=
  fun j => if j < cnt then f j else w j

/-- Overwrite a single vector entry. -/
def updV (w : Vec α) (i : ℕ) (x : α) : Vec α :=
  fun j => if j = i then x else w j

/-- Overwrite a whole row (the row-based trait implementations). -/
def updRow (o : Mat α) (i : ℕ) (f : Vec α) : Mat α :=
  fun r c => if r = i then f c else o r c

/-- `self.q.column_mut(i).assign(&a.column(i))`: copy the logical column
`i` of the input into column `i` of `q` (safe `ndarray` indexing). -/
def assignCol (q : Mat α) (i m : ℕ) (a : MatInput α) : Mat α :=
  updCol q i m fun k => a.entry k i

/-- The dgemv with `Transpose::None`, `alpha = -1`, `beta = 1` writing into
the strided `q_column`: subtract `Σ_{j<i} q[k, j] · c[j]` from each entry
`k < m` of column `i`. -/
def subtractProj (q : Mat α) (i m : ℕ) (c : ℕ → α) : Mat α :=
  updCol q i m fun k =>
    q k i - Finset.sum (Finset.range i) fun j => q k j * c j

/-- `scaled_add(-pf, q_done_column)` on the column view: subtract
`pf · q[k, j]` from each entry `k < m` of column `i`. -/
def subtractOne (q : Mat α) (i m j : ℕ) (pf : α) : Mat α :=
  updCol q i m fun k => q k i - pf * q k j

/-- dnrm2 of the strided column `i` followed by `v /= norm`: divide the
`m` entries of column `i` by the square root of their sum of squares. -/
def normalizeCol (sqrt : α → α) (q : Mat α) (i m : ℕ) : Mat α :=
  updCol q i m fun k => q k i / sqrt (sumSq m fun k' => q k' i)

/-- The norm that `normalizeCol` divides by. -/
def colNorm (sqrt : α → α) (q : Mat α) (i m : ℕ) : α :=
  sqrt (sumSq m fun k => q k i)

/-- Bounded extensional equality of matrices. -/
def matEq (m n : ℕ) (A B : Mat α) : Prop :=
  ∀ i, i < m → ∀ j, j < n → A i j = B i j

instance (m n : ℕ) (A B : Mat ℚ) : Decidable (matEq m n A B) := by
  unfold matEq; infer_instance

def isOkE {ε β : Type} : Except ε β → Bool
  | .ok _ => true
  | .error _ => false

/-- Eliminate an `Except` with a default for the error case; used to state
decidable properties of `compute` results. -/
def okElim {ε β γ : Type} (d : γ) (f : β → γ) : Except ε β → γ
  | .ok b => f b
  | .error _ => d

/-- Newton iteration for the integer square root, with explicit structural
fuel so that the kernel can evaluate it (the library `Nat.sqrt` is defined
by well-founded recursion and does not reduce definitionally). -/
def isqrtIter (n : ℕ) : ℕ → ℕ → ℕ
  | 0, guess => guess
  | fuel + 1, guess =>
      let next := (guess + n / guess) / 2
      if next < guess then isqrtIter n fuel next else guess

/-- Integer square root (agrees with `Nat.sqrt` for all inputs whose Newton
iteration from `n / 2` converges within 1000 steps, which covers every
concrete number appearing in this file). -/
def natSqrt (n : ℕ) : ℕ :=
  if n ≤ 1 then n else isqrtIter n 1000 (n / 2)

/-- A computable stand-in for the square root used when evaluating the
model over ℚ: exact whenever numerator and denominator are perfect squares
(as IEEE `sqrt` is exact on such small integer ratios), inexact otherwise
(as IEEE `sqrt` is on a general argument). -/
def ratSqrt (q : ℚ) : ℚ :=
  (natSqrt q.num.toNat : ℚ) / (natSqrt q.den : ℚ)

/-! ### cgs.rs: `ClassicalGramSchmidt` -/

/-- The engine struct of cgs.rs.  The Rust `Array2` fields carry their own
dimensions; here they are explicit.  Both `q` and `r` are allocated with
`Array2::zeros(array_shape)` where `array_shape` is the full `(rows, cols)`
shape of the sample matrix or of the given shape. -/
structure ClassicalGramSchmidt (α : Type) where
  qRows : ℕ
  qCols : ℕ
  rRows : ℕ
  rCols : ℕ
  q : Mat α
  r : Mat α
  memory_order : Layout
  dirty : Bool

/-- `ClassicalGramSchmidt::from_matrix`.  The `panic!("Array not
contiguous!")` on a non-contiguous sample is modelled as an error value. -/
def ClassicalGramSchmidt.from_matrix (a : MatInput α) :
    Except GSError (ClassicalGramSchmidt α) :=
  match a.contig with
  | none => .error .nonContiguous
  | some lay =>
      .ok { qRows := a.rows, qCols := a.cols, rRows := a.rows, rCols := a.cols
            q := fun _ _ => 0, r := fun _ _ => 0
            memory_order := lay, dirty := false }

/-- `ClassicalGramSchmidt::from_shape`. -/
def ClassicalGramSchmidt.from_shape (m n : ℕ) (fortran_order : Bool) :
    ClassicalGramSchmidt α :=
  { qRows := m, qCols := n, rRows := m, rCols := n
    q := fun _ _ => 0, r := fun _ _ => 0
    memory_order := if fortran_order then .colMajor else .rowMajor
    dirty := false }

/-- One iteration of the column loop of `ClassicalGramSchmidt::compute`
(state is the pair `(q, r)`):
copy column `i` of `a` into column `i` of `q`; if `i > 0` run the two dgemv
calls (coefficients `r[j, i] := Σ_k q[k, j] · a_column[k]` for `j < i`,
then `q[k, i] -= Σ_{j<i} q[k, j] · r[j, i]` for `k < n_rows`); take the
dnrm2 norm of column `i`, divide the column by it, and finally set
`r[(i, i)] = a.column(i).dot(&v)` against the normalized column. -/
def cgsColumnStep (sqrt : α → α) (nRows : ℕ) (a : MatInput α) (inc : ℕ)
    (st : Mat α × Mat α) (i : ℕ) : Mat α × Mat α :=
  let q0 := assignCol st.1 i nRows a
  let qr1 : Mat α × Mat α :=
    if i = 0 then (q0, st.2) else
      let rc : ℕ → α := fun j => dotN nRows (fun k => q0 k j) (aColF a inc i)
      (subtractProj q0 i nRows rc, updCol st.2 i i rc)
  let q2 := normalizeCol sqrt qr1.1 i nRows
  let r2 := updEntry qr1.2 i i (dotN nRows (fun k => a.entry k i) fun k => q2 k i)
  (q2, r2)

/-- `ClassicalGramSchmidt::compute`.  The `assert_eq!` on shapes and the
contiguity panic are modelled as error values; there is no layout-mismatch
check in the source (the strides assertion is commented out).  The `dirty`
flag guards the `r.fill(0.0)`; it is initialized `false` by the
constructors and, as in the source, never set anywhere, also not here. -/
def ClassicalGramSchmidt.compute (sqrt : α → α) (e : ClassicalGramSchmidt α)
    (a : MatInput α) : Except GSError (ClassicalGramSchmidt α) :=
  if a.rows = e.qRows ∧ a.cols = e.qCols then
    match a.contig with
    | none => .error .nonContiguous
    | some lay =>
        let inc : ℕ := match lay with | .rowMajor => e.qCols | .colMajor => 1
        let r0 : Mat α := if e.dirty then (fun _ _ => 0) else e.r
        let st := (List.range e.qCols).foldl
          (cgsColumnStep sqrt e.qRows a inc) (e.q, r0)
        .ok { e with q := st.1, r := st.2 }
  else .error .shapeMismatch

/-! ### cgs2.rs: `ReorthogonalizedGramSchmidt` -/

/-- The engine struct of cgs2.rs; like cgs.rs plus the scratch
`work_vector` of length `rows`. -/
structure ReorthogonalizedGramSchmidt (α : Type) where
  qRows : ℕ
  qCols : ℕ
  rRows : ℕ
  rCols : ℕ
  q : Mat α
  r : Mat α
  work_vector : Vec α
  workLen : ℕ
  memory_order : Layout
  dirty : Bool

/-- `ReorthogonalizedGramSchmidt::from_matrix`. -/
def ReorthogonalizedGramSchmidt.from_matrix (a : MatInput α) :
    Except GSError (ReorthogonalizedGramSchmidt α) :=
  match a.contig with
  | none => .error .nonContiguous
  | some lay =>
      .ok { qRows := a.rows, qCols := a.cols, rRows := a.rows, rCols := a.cols
            q := fun _ _ => 0, r := fun _ _ => 0
            work_vector := fun _ => 0, workLen := a.rows
            memory_order := lay, dirty := false }

/-- `ReorthogonalizedGramSchmidt::from_shape`. -/
def ReorthogonalizedGramSchmidt.from_shape (m n : ℕ) (fortran_order : Bool) :
    ReorthogonalizedGramSchmidt α :=
  { qRows := m, qCols := n, rRows := m, rCols := n
    q := fun _ _ => 0, r := fun _ _ => 0
    work_vector := fun _ => 0, workLen := m
    memory_order := if fortran_order then .colMajor else .rowMajor
    dirty := false }

/-- One iteration of the column loop of
`ReorthogonalizedGramSchmidt::compute` (state `(q, r, work_vector)`):
as in cgs.rs but with, inside the `i > 0` block, two further dgemv calls
computing second-pass coefficients into the work vector
(`work[j] := Σ_k q[k, j] · q[k, i]` for `j < i`, entries `j ≥ i` left as
they were) and subtracting them from column `i`, followed by the daxpy
`r[j, i] += work[j]` which the source runs over `n_rows` entries `j`. -/
def cgs2ColumnStep (sqrt : α → α) (nRows : ℕ) (a : MatInput α) (inc : ℕ)
    (st : Mat α × Mat α × Vec α) (i : ℕ) : Mat α × Mat α × Vec α :=
  let q0 := assignCol st.1 i nRows a
  let qrw1 : Mat α × Mat α × Vec α :=
    if i = 0 then (q0, st.2.1, st.2.2) else
      let rc : ℕ → α := fun j => dotN nRows (fun k => q0 k j) (aColF a inc i)
      let r1 := updCol st.2.1 i i rc
      let q1 := subtractProj q0 i nRows rc
      let wc : ℕ → α := fun j => dotN nRows (fun k => q1 k j) fun k => q1 k i
      let w1 := updVSeg st.2.2 i wc
      let q2 := subtractProj q1 i nRows w1
      let r2 : Mat α := fun k j =>
        if j = i ∧ k < nRows then r1 k j + w1 k else r1 k j
      (q2, r2, w1)
  let q3 := normalizeCol sqrt qrw1.1 i nRows
  let r3 := updEntry qrw1.2.1 i i (dotN nRows (fun k => a.entry k i) fun k => q3 k i)
  (q3, r3, qrw1.2.2)

/-- `ReorthogonalizedGramSchmidt::compute`; checks as in cgs.rs, and again
`dirty` is never set, so `r` is in fact never cleared between calls and the
work vector carries over verbatim. -/
def ReorthogonalizedGramSchmidt.compute (sqrt : α → α)
    (e : ReorthogonalizedGramSchmidt α) (a : MatInput α) :
    Except GSError (ReorthogonalizedGramSchmidt α) :=
  if a.rows = e.qRows ∧ a.cols = e.qCols then
    match a.contig with
    | none => .error .nonContiguous
    | some lay =>
        let inc : ℕ := match lay with | .rowMajor => e.qCols | .colMajor => 1
        let r0 : Mat α := if e.dirty then (fun _ _ => 0) else e.r
        let st := (List.range e.qCols).foldl
          (cgs2ColumnStep sqrt e.qRows a inc) (e.q, r0, e.work_vector)
        .ok { e with q := st.1, r := st.2.1, work_vector := st.2.2 }
  else .error .shapeMismatch

/-! ### mgs.rs: `ModifiedGramSchmidt` -/

/-- The engine struct of mgs.rs; no `dirty` flag exists here. -/
structure ModifiedGramSchmidt (α : Type) where
  qRows : ℕ
  qCols : ℕ
  rRows : ℕ
  rCols : ℕ
  q : Mat α
  r : Mat α
  memory_order : Layout

/-- `ModifiedGramSchmidt::from_matrix`. -/
def ModifiedGramSchmidt.from_matrix (a : MatInput α) :
    Except GSError (ModifiedGramSchmidt α) :=
  match a.contig with
  | none => .error .nonContiguous
  | some lay =>
      .ok { qRows := a.rows, qCols := a.cols, rRows := a.rows, rCols := a.cols
            q := fun _ _ => 0, r := fun _ _ => 0
            memory_order := lay }

/-- `ModifiedGramSchmidt::from_shape`. -/
def ModifiedGramSchmidt.from_shape (m n : ℕ) (fortran_order : Bool) :
    ModifiedGramSchmidt α :=
  { qRows := m, qCols := n, rRows := m, rCols := n
    q := fun _ _ => 0, r := fun _ _ => 0
    memory_order := if fortran_order then .colMajor else .rowMajor }

/-- One iteration of the column loop of `ModifiedGramSchmidt::compute`
(state `(q, r)`): assign column `i` of `a` into column `i` of `q`, then for
each finalized column `j = 0..i-1` in order compute
`projection_factor = q_done_column.dot(q_todo_column)` from the current
state of column `i`, store it at `r[(j, i)]` and subtract
`projection_factor · q[·, j]` from column `i`; finally `r[(i, i)]` is set
to the dnrm2 norm of the corrected column and the column is divided by it.
One inner iteration of that loop: `projection_factor` is recomputed as
`q_done_column.dot(&q_todo_column)` from the current state of column `i`,
stored at `r[(j, i)]`, and `projection_factor · q[·, j]` is subtracted from
column `i`. -/
def mgsInnerStep (nRows i : ℕ) (p : Mat α × Mat α) (j : ℕ) : Mat α × Mat α :=
  let pf := dotN nRows (fun k => p.1 k j) fun k => p.1 k i
  (subtractOne p.1 i nRows j pf, updEntry p.2 j i pf)

/-- The column loop body of `ModifiedGramSchmidt::compute`. -/
def mgsColumnStep (sqrt : α → α) (nRows : ℕ) (a : MatInput α)
    (st : Mat α × Mat α) (i : ℕ) : Mat α × Mat α :=
  let q0 := assignCol st.1 i nRows a
  let inner := (List.range i).foldl (mgsInnerStep nRows i) (q0, st.2)
  let r1 := updEntry inner.2 i i (colNorm sqrt inner.1 i nRows)
  (normalizeCol sqrt inner.1 i nRows, r1)

/-- `ModifiedGramSchmidt::compute`.  Unlike cgs.rs/cgs2.rs there is no
shape `assert_eq!` and no contiguity inspection of `a` at all: the loop
bounds come from `a.dim()` and every access to `a` is through safe
`ndarray` indexing, so the function is total here.  (Shape-mismatched
inputs would panic inside `ndarray` only after mutating earlier columns;
theorems about this engine therefore restrict to shape-matched inputs.) -/
def ModifiedGramSchmidt.compute (sqrt : α → α) (e : ModifiedGramSchmidt α)
    (a : MatInput α) : ModifiedGramSchmidt α :=
  let st := (List.range a.cols).foldl (mgsColumnStep sqrt a.rows a) (e.q, e.r)
  { e with q := st.1, r := st.2 }

/-! ### trait_impls.rs: `impl ModifiedGramSchmidt for f64` (row-based, late
projection) and parallel.rs: `impl ParallelModifiedGramSchmidt for f64`
(row-based, early projection).  State is `(orth, norm)`; `width` is the row
length (the number of columns of the matrix being orthogonalized). -/

/-- The inner loop `for w in done.genrows() { pf = v.dot(&w); v -= pf * w }`
shared by the row-based implementations: correct a vector against rows
`0..t-1` of a row family, the coefficient recomputed from the current
vector at each stage. -/
def corrFold (width : ℕ) (qs : ℕ → Vec α) (t : ℕ) (v : Vec α) : Vec α :=
  (List.range t).foldl (fun v j => fun c => v c - dotN width v (qs j) * qs j c) v

/-- One iteration of `<f64 as ModifiedGramSchmidt>::compute_inplace`: the
current row `i` is corrected against each already-finalized row
`j = 0..i-1` in order, recomputing `projection_factor = v.dot(&w)` from the
current state of `v` each time, and only then normalized. -/
def mgsRowStep (sqrt : α → α) (width : ℕ) (st : Mat α × Vec α) (i : ℕ) :
    Mat α × Vec α :=
  let v := corrFold width (fun j => st.1 j) i (st.1 i)
  let nv := sqrt (sumSq width v)
  (updRow st.1 i fun c => v c / nv, updV st.2 i nv)

/-- `<f64 as ModifiedGramSchmidt>::compute_inplace` from trait_impls.rs. -/
def ModifiedGramSchmidtF64.compute_inplace (sqrt : α → α) (nRows width : ℕ)
    (orth : Mat α) (norm : Vec α) : Mat α × Vec α :=
  (List.range nRows).foldl (mgsRowStep sqrt width) (orth, norm)

/-- One iteration of
`<f64 as ParallelModifiedGramSchmidt>::compute_inplace`: row `i` is
normalized first, then its projection is removed from every remaining row
`i+1..n_rows-1`.  The `into_par_iter` distributes these removals over
disjoint rows; the updates are independent, so the parallel loop is
modelled as a simultaneous update of those rows. -/
def pmgsRowStep (sqrt : α → α) (nRows width : ℕ) (st : Mat α × Vec α)
    (i : ℕ) : Mat α × Vec α :=
  let v := st.1 i
  let nv := sqrt (sumSq width v)
  let q := fun c => v c / nv
  let orth : Mat α := fun r c =>
    if r = i then q c
    else if i < r ∧ r < nRows then st.1 r c - dotN width q (st.1 r) * q c
    else st.1 r c
  (orth, updV st.2 i nv)

/-- `<f64 as ParallelModifiedGramSchmidt>::compute_inplace` from
parallel.rs. -/
def ParallelModifiedGramSchmidtF64.compute_inplace (sqrt : α → α)
    (nRows width : ℕ) (orth : Mat α) (norm : Vec α) : Mat α × Vec α :=
  (List.range nRows).foldl (pmgsRowStep sqrt nRows width) (orth, norm)

/-! ### Specification-side recurrences

These state, independently of the engines' in-place update plumbing, the
projection recurrences the spec describes; the claim theorems relate the
engine steps to them. -/

/-- Late-projection stages: `lateStage M q v0 j` is the current vector of a
column after it has been corrected, one at a time and in order, against the
finalized columns `0..j-1` of `q`, each coefficient being recomputed from
the stage reached so far. -/
def lateStage (nRows : ℕ) (q : Mat α) (v0 : Vec α) : ℕ → Vec α
  | 0 => v0
  | j + 1 => fun c =>
      lateStage nRows q v0 j c -
        dotN nRows (fun k => q k j) (lateStage nRows q v0 j) * q c j

/-- First-pass (classical) projection coefficient of column `i` against
finalized column `j`: the batched product reads the raw `a_column` slice. -/
def projCoeff1 (nRows : ℕ) (a : MatInput α) (inc : ℕ) (q : Mat α)
    (i j : ℕ) : α :=
  dotN nRows (fun k => q k j) (aColF a inc i)

/-- Column `i` after the single batched classical correction. -/
def correctedCol1 (nRows : ℕ) (a : MatInput α) (inc : ℕ) (q : Mat α)
    (i : ℕ) : Vec α := fun k =>
  a.entry k i -
    Finset.sum (Finset.range i) fun j => q k j * projCoeff1 nRows a inc q i j

/-- Second-pass coefficient: the projection of the *already-corrected*
column `i` against finalized column `j`. -/
def projCoeff2 (nRows : ℕ) (a : MatInput α) (inc : ℕ) (q : Mat α)
    (i j : ℕ) : α :=
  dotN nRows (fun k => q k j) (correctedCol1 nRows a inc q i)

/-- Column `i` after both correction passes of CGS2. -/
def correctedCol2 (nRows : ℕ) (a : MatInput α) (inc : ℕ) (q : Mat α)
    (i : ℕ) : Vec α := fun k =>
  correctedCol1 nRows a inc q i k -
    Finset.sum (Finset.range i) fun j => q k j * projCoeff2 nRows a inc q i j

/-! ### Concrete fixtures -/

/-- The 4x4 identity, stored row-major. -/
def idIn4 : MatInput ℚ := ⟨4, 4, (fun i j => if i = j then 1 else 0), some .rowMajor⟩

/-- The 4x4 identity as a bare matrix. -/
def idM4 : Mat ℚ := fun i j => if i = j then 1 else 0

/-- A generic full-rank 4x4 matrix whose Gram-Schmidt normalizations are
not exact under `ratSqrt` (as they are not under IEEE arithmetic); used to
exhibit the stale-scratch leak of cgs2.rs across two `compute` calls. -/
def stale4 : MatInput ℚ := ⟨4, 4, (fun i j =>
  match i, j with
  | 0, 0 => 1 | 0, 1 => 1
  | 1, 0 => 1 | 1, 1 => 2 | 1, 2 => 1
  | 2, 1 => 1 | 2, 2 => 3 | 2, 3 => 1
  | 3, 2 => 1 | 3, 3 => 4
  | _, _ => 0), some .rowMajor⟩

/-- The pair (first call's `r[2,1]`, second call's `r[2,1]`) after running
`ReorthogonalizedGramSchmidt::compute` twice on `stale4` with the same
freshly constructed engine. -/
def cgs2TwiceR21 : ℚ × ℚ :=
  okElim (0, 0) (fun e1 => okElim (0, 0)
      (fun e2 => (e1.r 2 1, e2.r 2 1))
      (ReorthogonalizedGramSchmidt.compute ratSqrt e1 stale4))
    (ReorthogonalizedGramSchmidt.compute ratSqrt
      (ReorthogonalizedGramSchmidt.from_shape 4 4 false) stale4)

/-- The 4x4 matrix of spec scenario 2, whose columns are
`[2,0,0,0]`, `[0.5,0.3,1,0]`, `[0,0,0.7,0]`, `[0,0,0,3]`; row-major. -/
def bMat : MatInput ℚ := ⟨4, 4, (fun i j =>
  match i, j with
  | 0, 0 => 2 | 0, 1 => 1/2
  | 1, 1 => 3/10
  | 2, 1 => 1 | 2, 2 => 7/10
  | 3, 3 => 3
  | _, _ => 0), some .rowMajor⟩

/-- A 2x2 matrix whose second column is zero (a linear combination of the
first), stored row-major. -/
def zeroCol2 : MatInput ℚ := ⟨2, 2, (fun i j => if i = 0 ∧ j = 0 then 1 else 0), some .rowMajor⟩

/-- A contiguous row-major 2×2 input whose second column is a linear
combination (twice) of the first but is not itself zero: rows [1,2], [1,2],
so columns [1,1] and [2,2] = 2·[1,1]. -/
def depCol2 : MatInput ℚ := ⟨2, 2, (fun _ j => if j = 0 then 1 else 2), some .rowMajor⟩

/-- A shape-mismatched (3x2) row-major input for a 2x2 engine. -/
def badShape32 : MatInput ℚ := ⟨3, 2, (fun i j => (i : ℚ) + j), some .rowMajor⟩

/-- A 2x2 input that is contiguous in column-major order only, fed to
engines bound to row-major layout. -/
def colMaj2 : MatInput ℚ := ⟨2, 2, (fun i j => 2 * (i : ℚ) + j + 1), some .colMajor⟩

/-- A 2x2 non-contiguous input. -/
def nonContig2 : MatInput ℚ := ⟨2, 2, (fun i j => (i : ℚ) - j), none⟩

/-- Fixture input for the per-column witness instantiations. -/
def wIn : MatInput ℚ := ⟨2, 2, (fun i j =>
  match i, j with
  | 0, 0 => 3 | 0, 1 => 1
  | 1, 0 => 1 | 1, 1 => 2
  | _, _ => 0), some .rowMajor⟩

/-- Fixture engine matrix (a finalized first column) for witnesses. -/
def wQ : Mat ℚ := fun i j => if j = 0 then (if i = 0 then 3/5 else if i = 1 then 4/5 else 0) else 0

/-- Fixture upper-triangular matrix state for witnesses. -/
def wR : Mat ℚ := fun i j => if i = 0 ∧ j = 0 then 5 else 0

/-- Fixture scratch vector for witnesses. -/
def wW : Vec ℚ := fun j => if j = 0 then 7 else 11

/-- The transpose of `bMat`: the matrix whose *rows* are the columns named
in spec scenario 2. -/
def bMatT : MatInput ℚ := ⟨4, 4, (fun k j => bMat.entry j k), some .rowMajor⟩

/-- Cast a rational input matrix into an arbitrary field (used to state
real-number theorems about the engines). -/
def castInput (α : Type) [Field α] (a : MatInput ℚ) : MatInput α :=
  ⟨a.rows, a.cols, fun i j => ((a.entry i j : ℚ) : α), a.contig⟩

/-! ## Helper lemmas -/

theorem foldl_range_succ {β : Type} (f : β → ℕ → β) (b : β) (n : ℕ) :
    (List.range (n + 1)).foldl f b = f ((List.range n).foldl f b) n := by
  rw [List.range_succ, List.foldl_append, List.foldl_cons, List.foldl_nil]

theorem dotN_congr (m : ℕ) {v v' w w' : Vec α} (hv : ∀ k, k < m → v k = v' k)
    (hw : ∀ k, k < m → w k = w' k) : dotN m v w = dotN m v' w' := by
  unfold dotN
  exact Finset.sum_congr rfl fun k hk => by
    rw [hv k (Finset.mem_range.mp hk), hw k (Finset.mem_range.mp hk)]

theorem dotN_comm (m : ℕ) (v w : Vec α) : dotN m v w = dotN m w v := by
  unfold dotN
  exact Finset.sum_congr rfl fun k _ => mul_comm _ _

theorem updCol_other (q : Mat α) {i j : ℕ} (m : ℕ) (f : Vec α) (k : ℕ)
    (h : j ≠ i) : updCol q i m f k j = q k j := by
  simp [updCol, h]

theorem updCol_hit (q : Mat α) {k m : ℕ} (i : ℕ) (f : Vec α) (h : k < m) :
    updCol q i m f k i = f k := by
  simp [updCol, h]

theorem updCol_beyond (q : Mat α) {k m : ℕ} (i : ℕ) (f : Vec α) (h : ¬ k < m) :
    updCol q i m f k i = q k i := by
  simp [updCol, h]

theorem updCol_col_other (q : Mat α) {i j : ℕ} (m : ℕ) (f : Vec α)
    (h : j ≠ i) : (fun k => updCol q i m f k j) = fun k => q k j := by
  funext k; exact updCol_other q m f k h



theorem updEntry_hit (r : Mat α) (i j : ℕ) (x : α) : updEntry r i j x i j = x := by
  simp [updEntry]

theorem updEntry_miss (r : Mat α) {i j k l : ℕ} (x : α) (h : ¬ (k = i ∧ l = j)) :
    updEntry r i j x k l = r k l := by
  simp [updEntry, h]

theorem assignCol_hit (q : Mat α) {i k m : ℕ} (a : MatInput α) (h : k < m) :
    assignCol q i m a k i = a.entry k i := updCol_hit _ _ _ h

theorem assignCol_other (q : Mat α) {i j : ℕ} (m : ℕ) (a : MatInput α) (k : ℕ)
    (h : j ≠ i) : assignCol q i m a k j = q k j := updCol_other _ _ _ _ h

theorem assignCol_beyond (q : Mat α) {i k m : ℕ} (a : MatInput α) (h : ¬ k < m) :
    assignCol q i m a k i = q k i := updCol_beyond _ _ _ h

theorem subtractProj_hit (q : Mat α) {i k m : ℕ} (c : ℕ → α) (h : k < m) :
    subtractProj q i m c k i =
      q k i - Finset.sum (Finset.range i) (fun j => q k j * c j) :=
  updCol_hit _ _ _ h

theorem subtractProj_other (q : Mat α) {i j : ℕ} (m : ℕ) (c : ℕ → α) (k : ℕ)
    (h : j ≠ i) : subtractProj q i m c k j = q k j := updCol_other _ _ _ _ h

theorem subtractProj_beyond (q : Mat α) {i k m : ℕ} (c : ℕ → α) (h : ¬ k < m) :
    subtractProj q i m c k i = q k i := updCol_beyond _ _ _ h

theorem normalizeCol_hit (sqrt : α → α) (q : Mat α) {i k m : ℕ} (h : k < m) :
    normalizeCol sqrt q i m k i = q k i / colNorm sqrt q i m := updCol_hit _ _ _ h

theorem normalizeCol_other (sqrt : α → α) (q : Mat α) {i j : ℕ} (m : ℕ) (k : ℕ)
    (h : j ≠ i) : normalizeCol sqrt q i m k j = q k j := updCol_other _ _ _ _ h

theorem normalizeCol_beyond (sqrt : α → α) (q : Mat α) {i k m : ℕ} (h : ¬ k < m) :
    normalizeCol sqrt q i m k i = q k i := updCol_beyond _ _ _ h

theorem subtractOne_hit (q : Mat α) {i k m : ℕ} (j : ℕ) (pf : α) (h : k < m) :
    subtractOne q i m j pf k i = q k i - pf * q k j := updCol_hit _ _ _ h

theorem subtractOne_other (q : Mat α) {i l : ℕ} (m j : ℕ) (pf : α) (k : ℕ)
    (h : l ≠ i) : subtractOne q i m j pf k l = q k l := updCol_other _ _ _ _ h

theorem colNorm_congr (sqrt : α → α) {q p : Mat α} {i m : ℕ}
    (h : ∀ k, k < m → q k i = p k i) : colNorm sqrt q i m = colNorm sqrt p i m := by
  unfold colNorm sumSq
  rw [dotN_congr m h h]


/-- Entrywise characterization of one column iteration of
`ClassicalGramSchmidt::compute`: column `i` of Q becomes the batch-corrected
column `correctedCol1` divided by its norm, R gains the first-pass
coefficients above the diagonal and the freshly recomputed dot product on
the diagonal, and nothing else changes. -/
theorem cgsColumnStep_char (sqrt : α → α) (nRows : ℕ) (a : MatInput α)
    (inc : ℕ) (q r : Mat α) (i : ℕ) :
    (∀ k, k < nRows → (cgsColumnStep sqrt nRows a inc (q, r) i).1 k i =
      correctedCol1 nRows a inc q i k /
        sqrt (sumSq nRows (correctedCol1 nRows a inc q i)))
    ∧ (∀ k j, j ≠ i → (cgsColumnStep sqrt nRows a inc (q, r) i).1 k j = q k j)
    ∧ (∀ k, ¬ k < nRows → (cgsColumnStep sqrt nRows a inc (q, r) i).1 k i = q k i)
    ∧ ((cgsColumnStep sqrt nRows a inc (q, r) i).2 i i =
      dotN nRows (fun k => a.entry k i)
        (fun k => correctedCol1 nRows a inc q i k /
          sqrt (sumSq nRows (correctedCol1 nRows a inc q i))))
    ∧ (∀ j, j < i → (cgsColumnStep sqrt nRows a inc (q, r) i).2 j i =
      projCoeff1 nRows a inc q i j)
    ∧ (∀ x y, ¬ (x = i ∧ y = i) → ¬ (y = i ∧ x < i) →
      (cgsColumnStep sqrt nRows a inc (q, r) i).2 x y = r x y) := by
  have hmid : ∀ k, k < nRows →
      (if i = 0 then (assignCol q i nRows a, r)
       else (subtractProj (assignCol q i nRows a) i nRows
               (fun j => dotN nRows (fun k' => assignCol q i nRows a k' j) (aColF a inc i)),
             updCol r i i
               (fun j => dotN nRows (fun k' => assignCol q i nRows a k' j) (aColF a inc i)))).1 k i
      = correctedCol1 nRows a inc q i k := by
    intro k hk
    by_cases hi : i = 0
    · subst hi
      rw [if_pos rfl]
      dsimp only
      rw [assignCol_hit _ _ hk]
      simp [correctedCol1]
    · rw [if_neg hi]
      dsimp only
      rw [subtractProj_hit _ _ hk, assignCol_hit _ _ hk]
      unfold correctedCol1
      congr 1
      refine Finset.sum_congr rfl fun j hj => ?_
      have hj' : j ≠ i := Nat.ne_of_lt (Finset.mem_range.mp hj)
      rw [assignCol_other _ _ _ _ hj']
      congr 1
      unfold projCoeff1
      exact dotN_congr nRows (fun k' _ => assignCol_other _ _ _ _ hj') (fun _ _ => rfl)
  have hmid' : ∀ k j, j ≠ i →
      (if i = 0 then (assignCol q i nRows a, r)
       else (subtractProj (assignCol q i nRows a) i nRows
               (fun j => dotN nRows (fun k' => assignCol q i nRows a k' j) (aColF a inc i)),
             updCol r i i
               (fun j => dotN nRows (fun k' => assignCol q i nRows a k' j) (aColF a inc i)))).1 k j
      = q k j := by
    intro k j hj
    by_cases hi : i = 0
    · rw [if_pos hi]; exact assignCol_other _ _ _ _ hj
    · rw [if_neg hi]; dsimp only
      rw [subtractProj_other _ _ _ _ hj]; exact assignCol_other _ _ _ _ hj
  have hmidB : ∀ k, ¬ k < nRows →
      (if i = 0 then (assignCol q i nRows a, r)
       else (subtractProj (assignCol q i nRows a) i nRows
               (fun j => dotN nRows (fun k' => assignCol q i nRows a k' j) (aColF a inc i)),
             updCol r i i
               (fun j => dotN nRows (fun k' => assignCol q i nRows a k' j) (aColF a inc i)))).1 k i
      = q k i := by
    intro k hk
    by_cases hi : i = 0
    · rw [if_pos hi]; exact assignCol_beyond _ _ hk
    · rw [if_neg hi]; dsimp only
      rw [subtractProj_beyond _ _ hk]; exact assignCol_beyond _ _ hk
  have hnorm :
      colNorm sqrt
        (if i = 0 then (assignCol q i nRows a, r)
         else (subtractProj (assignCol q i nRows a) i nRows
                 (fun j => dotN nRows (fun k' => assignCol q i nRows a k' j) (aColF a inc i)),
               updCol r i i
                 (fun j => dotN nRows (fun k' => assignCol q i nRows a k' j) (aColF a inc i)))).1 i nRows
      = sqrt (sumSq nRows (correctedCol1 nRows a inc q i)) := by
    unfold colNorm sumSq
    rw [dotN_congr nRows (fun k hk => hmid k hk) (fun k hk => hmid k hk)]
  refine ⟨?_, ?_, ?_, ?_, ?_, ?_⟩
  · intro k hk
    show normalizeCol sqrt _ i nRows k i = _
    rw [normalizeCol_hit _ _ hk, hnorm, hmid k hk]
  · intro k j hj
    show normalizeCol sqrt _ i nRows k j = _
    rw [normalizeCol_other _ _ _ _ hj]
    exact hmid' k j hj
  · intro k hk
    show normalizeCol sqrt _ i nRows k i = _
    rw [normalizeCol_beyond _ _ hk]
    exact hmidB k hk
  · show updEntry _ i i _ i i = _
    rw [updEntry_hit]
    refine dotN_congr nRows (fun k _ => rfl) (fun k hk => ?_)
    show normalizeCol sqrt _ i nRows k i = _
    rw [normalizeCol_hit _ _ hk, hnorm, hmid k hk]
  · intro j hj
    show updEntry _ i i _ j i = _
    rw [updEntry_miss _ _ (by intro h; exact absurd h.1 (Nat.ne_of_lt hj))]
    by_cases hi : i = 0
    · exact absurd hj (by simp [hi])
    · rw [if_neg hi]
      dsimp only
      rw [updCol_hit _ _ _ hj]
      unfold projCoeff1
      exact dotN_congr nRows
        (fun k' _ => assignCol_other _ _ _ _ (Nat.ne_of_lt hj)) (fun _ _ => rfl)
  · intro x y hxy hyx
    show updEntry _ i i _ x y = _
    rw [updEntry_miss _ _ hxy]
    by_cases hi : i = 0
    · rw [if_pos hi]
    · rw [if_neg hi]
      dsimp only
      by_cases hy : y = i
      · rw [hy]
        exact updCol_beyond _ _ _ fun hc => hyx ⟨hy, hc⟩
      · exact updCol_other _ _ _ _ hy


theorem updVSeg_hit (w : Vec α) {cnt j : ℕ} (f : ℕ → α) (h : j < cnt) :
    updVSeg w cnt f j = f j := by simp [updVSeg, h]

theorem updVSeg_miss (w : Vec α) {cnt j : ℕ} (f : ℕ → α) (h : ¬ j < cnt) :
    updVSeg w cnt f j = w j := by simp [updVSeg, h]

/-- Characterization of one column iteration (`i > 0`, `i ≤ n_rows`) of
`ReorthogonalizedGramSchmidt::compute`: the scratch vector receives the
second-pass coefficients in its first `i` entries and keeps its previous
contents beyond them, R's column `i` above the diagonal receives the sum of
the first- and second-pass coefficients, and column `i` of Q becomes the
twice-corrected column divided by its norm. -/
theorem cgs2ColumnStep_char (sqrt : α → α) (nRows : ℕ) (a : MatInput α)
    (inc : ℕ) (q r : Mat α) (w : Vec α) (i : ℕ) (hi : 0 < i) (hin : i ≤ nRows) :
    (∀ j, j < i → (cgs2ColumnStep sqrt nRows a inc (q, r, w) i).2.2 j =
      projCoeff2 nRows a inc q i j)
    ∧ (∀ j, ¬ j < i → (cgs2ColumnStep sqrt nRows a inc (q, r, w) i).2.2 j = w j)
    ∧ (∀ j, j < i → (cgs2ColumnStep sqrt nRows a inc (q, r, w) i).2.1 j i =
      projCoeff1 nRows a inc q i j + projCoeff2 nRows a inc q i j)
    ∧ (∀ k, k < nRows → (cgs2ColumnStep sqrt nRows a inc (q, r, w) i).1 k i =
      correctedCol2 nRows a inc q i k /
        sqrt (sumSq nRows (correctedCol2 nRows a inc q i))) := by
  have hne : ¬ i = 0 := Nat.pos_iff_ne_zero.mp hi
  -- first-corrected column and first-pass coefficients
  have hq1other : ∀ (j : ℕ), j ≠ i → ∀ k,
      subtractProj (assignCol q i nRows a) i nRows
        (fun j' => dotN nRows (fun k' => assignCol q i nRows a k' j') (aColF a inc i)) k j
      = q k j := by
    intro j hj k
    rw [subtractProj_other _ _ _ _ hj, assignCol_other _ _ _ _ hj]
  have hq1col : ∀ k, k < nRows →
      subtractProj (assignCol q i nRows a) i nRows
        (fun j' => dotN nRows (fun k' => assignCol q i nRows a k' j') (aColF a inc i)) k i
      = correctedCol1 nRows a inc q i k := by
    intro k hk
    rw [subtractProj_hit _ _ hk, assignCol_hit _ _ hk]
    unfold correctedCol1
    congr 1
    refine Finset.sum_congr rfl fun j hj => ?_
    have hj' : j ≠ i := Nat.ne_of_lt (Finset.mem_range.mp hj)
    rw [assignCol_other _ _ _ _ hj']
    congr 1
    unfold projCoeff1
    exact dotN_congr nRows (fun k' _ => assignCol_other _ _ _ _ hj') (fun _ _ => rfl)
  -- second-pass coefficients
  have hwc : ∀ j, j < i →
      dotN nRows
        (fun k => subtractProj (assignCol q i nRows a) i nRows
          (fun j' => dotN nRows (fun k' => assignCol q i nRows a k' j') (aColF a inc i)) k j)
        (fun k => subtractProj (assignCol q i nRows a) i nRows
          (fun j' => dotN nRows (fun k' => assignCol q i nRows a k' j') (aColF a inc i)) k i)
      = projCoeff2 nRows a inc q i j := by
    intro j hj
    unfold projCoeff2
    exact dotN_congr nRows (fun k _ => hq1other j (Nat.ne_of_lt hj) k)
      (fun k hk => hq1col k hk)
  refine ⟨?_, ?_, ?_, ?_⟩
  · intro j hj
    unfold cgs2ColumnStep
    dsimp only
    rw [if_neg hne]
    dsimp only
    rw [updVSeg_hit _ _ hj]
    exact hwc j hj
  · intro j hj
    unfold cgs2ColumnStep
    dsimp only
    rw [if_neg hne]
    dsimp only
    exact updVSeg_miss _ _ hj
  · intro j hj
    unfold cgs2ColumnStep
    dsimp only
    rw [if_neg hne]
    dsimp only
    rw [updEntry_miss _ _ (by intro h; exact absurd h.1 (Nat.ne_of_lt hj))]
    rw [if_pos (And.intro rfl (lt_of_lt_of_le hj hin))]
    rw [updCol_hit _ _ _ hj, updVSeg_hit _ _ hj, hwc j hj]
    congr 1
    unfold projCoeff1
    exact dotN_congr nRows
      (fun k' _ => assignCol_other _ _ _ _ (Nat.ne_of_lt hj)) (fun _ _ => rfl)
  · intro k hk
    unfold cgs2ColumnStep
    dsimp only
    rw [if_neg hne]
    dsimp only
    rw [normalizeCol_hit _ _ hk]
    have hq2col : ∀ k', k' < nRows →
        subtractProj
          (subtractProj (assignCol q i nRows a) i nRows
            (fun j' => dotN nRows (fun k'' => assignCol q i nRows a k'' j') (aColF a inc i)))
          i nRows
          (updVSeg w i fun j =>
            dotN nRows
              (fun k'' => subtractProj (assignCol q i nRows a) i nRows
                (fun j' => dotN nRows (fun k3 => assignCol q i nRows a k3 j') (aColF a inc i)) k'' j)
              (fun k'' => subtractProj (assignCol q i nRows a) i nRows
                (fun j' => dotN nRows (fun k3 => assignCol q i nRows a k3 j') (aColF a inc i)) k'' i))
          k' i
        = correctedCol2 nRows a inc q i k' := by
      intro k' hk'
      rw [subtractProj_hit _ _ hk', hq1col k' hk']
      unfold correctedCol2
      congr 1
      refine Finset.sum_congr rfl fun j hj => ?_
      have hj' := Finset.mem_range.mp hj
      rw [hq1other j (Nat.ne_of_lt hj') k', updVSeg_hit _ _ hj', hwc j hj']
    rw [hq2col k hk]
    congr 1
    unfold colNorm sumSq
    exact congrArg sqrt
      (dotN_congr nRows (fun k' hk' => hq2col k' hk') (fun k' hk' => hq2col k' hk'))


/-- The inner projection loop of mgs.rs, related to the `lateStage`
recurrence: after `t ≤ i` iterations, column `i` (below `nRows`) holds the
`t`-th stage of the current vector, `r` holds the stage-recomputed
coefficients at `(j, i)` for `j < t`, and nothing else has changed. -/
theorem mgsInner_char (nRows : ℕ) (a : MatInput α) (q r : Mat α) (i : ℕ) :
    ∀ t, t ≤ i →
    (∀ k, k < nRows →
      ((List.range t).foldl (mgsInnerStep nRows i) (assignCol q i nRows a, r)).1 k i =
        lateStage nRows q (fun k' => a.entry k' i) t k)
    ∧ (∀ k j, j ≠ i →
      ((List.range t).foldl (mgsInnerStep nRows i) (assignCol q i nRows a, r)).1 k j = q k j)
    ∧ (∀ k, ¬ k < nRows →
      ((List.range t).foldl (mgsInnerStep nRows i) (assignCol q i nRows a, r)).1 k i = q k i)
    ∧ (∀ j, j < t →
      ((List.range t).foldl (mgsInnerStep nRows i) (assignCol q i nRows a, r)).2 j i =
        dotN nRows (fun k => q k j) (lateStage nRows q (fun k' => a.entry k' i) j))
    ∧ (∀ x y, ¬ (y = i ∧ x < t) →
      ((List.range t).foldl (mgsInnerStep nRows i) (assignCol q i nRows a, r)).2 x y = r x y) := by
  intro t
  induction t with
  | zero =>
      intro _
      refine ⟨?_, ?_, ?_, ?_, ?_⟩
      · intro k hk
        simp only [List.range_zero, List.foldl_nil, lateStage]
        exact assignCol_hit _ _ hk
      · intro k j hj
        simp only [List.range_zero, List.foldl_nil]
        exact assignCol_other _ _ _ _ hj
      · intro k hk
        simp only [List.range_zero, List.foldl_nil]
        exact assignCol_beyond _ _ hk
      · intro j hj
        exact absurd hj (Nat.not_lt_zero j)
      · intro x y _
        simp only [List.range_zero, List.foldl_nil]
  | succ t ih =>
      intro ht
      have ht' : t ≤ i := Nat.le_of_succ_le ht
      have hti : t < i := ht
      obtain ⟨ih1, ih2, ih3, ih4, ih5⟩ := ih ht'
      have hpf :
          dotN nRows
            (fun k => ((List.range t).foldl (mgsInnerStep nRows i) (assignCol q i nRows a, r)).1 k t)
            (fun k => ((List.range t).foldl (mgsInnerStep nRows i) (assignCol q i nRows a, r)).1 k i)
          = dotN nRows (fun k => q k t)
              (lateStage nRows q (fun k' => a.entry k' i) t) :=
        dotN_congr nRows (fun k _ => ih2 k t (Nat.ne_of_lt hti)) (fun k hk => ih1 k hk)
      refine ⟨?_, ?_, ?_, ?_, ?_⟩
      · intro k hk
        rw [foldl_range_succ]
        show subtractOne _ i nRows t _ k i = _
        rw [subtractOne_hit _ _ _ hk, hpf, ih1 k hk, ih2 k t (Nat.ne_of_lt hti)]
        rfl
      · intro k j hj
        rw [foldl_range_succ]
        show subtractOne _ i nRows t _ k j = _
        rw [subtractOne_other _ _ _ _ _ hj]
        exact ih2 k j hj
      · intro k hk
        rw [foldl_range_succ]
        show subtractOne _ i nRows t _ k i = _
        show updCol _ i nRows _ k i = _
        rw [updCol_beyond _ _ _ hk]
        exact ih3 k hk
      · intro j hj
        rw [foldl_range_succ]
        show updEntry _ t i _ j i = _
        rcases Nat.lt_succ_iff_lt_or_eq.mp hj with hj' | hj'
        · rw [updEntry_miss _ _ (by intro h; exact absurd h.1 (Nat.ne_of_lt hj'))]
          exact ih4 j hj'
        · subst hj'
          rw [updEntry_hit, hpf]
      · intro x y hxy
        rw [foldl_range_succ]
        show updEntry _ t i _ x y = _
        rw [updEntry_miss _ _ (by
          intro h
          exact hxy ⟨h.2, h.1 ▸ Nat.lt_succ_self t⟩)]
        exact ih5 x y (by
          intro h
          exact hxy ⟨h.1, Nat.lt_succ_of_lt h.2⟩)

/-- Entrywise characterization of one column iteration of
`ModifiedGramSchmidt::compute`: the coefficients stored at `r[(j, i)]` are
the late-projection ones, recomputed from the current vector at each stage;
`r[(i, i)]` is the norm of the fully corrected vector; and column `i` of Q
is that vector divided by its norm. -/
theorem mgsColumnStep_char (sqrt : α → α) (nRows : ℕ) (a : MatInput α)
    (q r : Mat α) (i : ℕ) :
    (∀ j, j < i → (mgsColumnStep sqrt nRows a (q, r) i).2 j i =
      dotN nRows (fun k => q k j) (lateStage nRows q (fun k' => a.entry k' i) j))
    ∧ ((mgsColumnStep sqrt nRows a (q, r) i).2 i i =
      sqrt (sumSq nRows (lateStage nRows q (fun k' => a.entry k' i) i)))
    ∧ (∀ k, k < nRows → (mgsColumnStep sqrt nRows a (q, r) i).1 k i =
      lateStage nRows q (fun k' => a.entry k' i) i k /
        sqrt (sumSq nRows (lateStage nRows q (fun k' => a.entry k' i) i)))
    ∧ (∀ k j, j ≠ i → (mgsColumnStep sqrt nRows a (q, r) i).1 k j = q k j)
    ∧ (∀ k, ¬ k < nRows → (mgsColumnStep sqrt nRows a (q, r) i).1 k i = q k i)
    ∧ (∀ x y, y ≠ i → (mgsColumnStep sqrt nRows a (q, r) i).2 x y = r x y) := by
  obtain ⟨h1, h2, h3, h4, h5⟩ := mgsInner_char nRows a q r i i le_rfl
  have hnrm :
      colNorm sqrt
        ((List.range i).foldl (mgsInnerStep nRows i) (assignCol q i nRows a, r)).1 i nRows
      = sqrt (sumSq nRows (lateStage nRows q (fun k' => a.entry k' i) i)) := by
    unfold colNorm sumSq
    exact congrArg sqrt (dotN_congr nRows (fun k hk => h1 k hk) (fun k hk => h1 k hk))
  refine ⟨?_, ?_, ?_, ?_, ?_, ?_⟩
  · intro j hj
    show updEntry _ i i _ j i = _
    rw [updEntry_miss _ _ (by intro h; exact absurd h.1 (Nat.ne_of_lt hj))]
    exact h4 j hj
  · show updEntry _ i i _ i i = _
    rw [updEntry_hit]
    exact hnrm
  · intro k hk
    show normalizeCol sqrt _ i nRows k i = _
    rw [normalizeCol_hit _ _ hk, hnrm, h1 k hk]
  · intro k j hj
    show normalizeCol sqrt _ i nRows k j = _
    rw [normalizeCol_other _ _ _ _ hj]
    exact h2 k j hj
  · intro k hk
    show normalizeCol sqrt _ i nRows k i = _
    rw [normalizeCol_beyond _ _ hk]
    exact h3 k hk
  · intro x y hy
    show updEntry _ i i _ x y = _
    rw [updEntry_miss _ _ (by intro h; exact absurd h.2 hy)]
    exact h5 x y (by intro h; exact absurd h.1 hy)


theorem updRow_hit (o : Mat α) (i : ℕ) (f : Vec α) : updRow o i f i = f := by
  funext c; simp [updRow]

theorem updRow_miss (o : Mat α) {i r : ℕ} (f : Vec α) (h : r ≠ i) :
    updRow o i f r = o r := by
  funext c; simp [updRow, h]

theorem updV_hit (w : Vec α) (i : ℕ) (x : α) : updV w i x i = x := by simp [updV]

theorem updV_miss (w : Vec α) {i j : ℕ} (x : α) (h : j ≠ i) :
    updV w i x j = w j := by simp [updV, h]

theorem corrFold_succ (width : ℕ) (qs : ℕ → Vec α) (t : ℕ) (v : Vec α) :
    corrFold width qs (t + 1) v = fun c =>
      corrFold width qs t v c -
        dotN width (corrFold width qs t v) (qs t) * qs t c := by
  unfold corrFold
  rw [foldl_range_succ]

theorem corrFold_congr (width : ℕ) (t : ℕ) (qs qs' : ℕ → Vec α)
    (h : ∀ j, j < t → qs j = qs' j) (v : Vec α) :
    corrFold width qs t v = corrFold width qs' t v := by
  induction t generalizing v with
  | zero => rfl
  | succ t ih =>
      rw [corrFold_succ, corrFold_succ,
        ih (fun j hj => h j (Nat.lt_succ_of_lt hj)), h t (Nat.lt_succ_self t)]

/-- The sequential (late-projection) trait implementation does not touch
rows at or beyond the step count. -/
theorem seq_future (sqrt : α → α) (nRows width : ℕ) (orth : Mat α) (norm : Vec α) :
    ∀ t r, t ≤ r →
      ((List.range t).foldl (mgsRowStep sqrt width) (orth, norm)).1 r = orth r
      ∧ ((List.range t).foldl (mgsRowStep sqrt width) (orth, norm)).2 r = norm r := by
  intro t
  induction t with
  | zero => intro r _; exact ⟨rfl, rfl⟩
  | succ t ih =>
      intro r hr
      have hr' : t ≤ r := Nat.le_of_succ_le hr
      have hne : r ≠ t := by omega
      rw [foldl_range_succ]
      constructor
      · show updRow _ t _ r = _
        rw [updRow_miss _ _ hne]
        exact (ih r hr').1
      · show updV _ t _ r = _
        rw [updV_miss _ _ hne]
        exact (ih r hr').2

/-- Finished rows and norms of the sequential implementation are stable
under further steps. -/
theorem seq_stable (sqrt : α → α) (nRows width : ℕ) (orth : Mat α) (norm : Vec α) :
    ∀ t j, j < t →
      ((List.range t).foldl (mgsRowStep sqrt width) (orth, norm)).1 j =
        ((List.range (j + 1)).foldl (mgsRowStep sqrt width) (orth, norm)).1 j
      ∧ ((List.range t).foldl (mgsRowStep sqrt width) (orth, norm)).2 j =
        ((List.range (j + 1)).foldl (mgsRowStep sqrt width) (orth, norm)).2 j := by
  intro t
  induction t with
  | zero => intro j hj; exact absurd hj (Nat.not_lt_zero j)
  | succ t ih =>
      intro j hj
      rcases Nat.lt_succ_iff_lt_or_eq.mp hj with hj' | hj'
      · have hne : j ≠ t := Nat.ne_of_lt hj'
        rw [foldl_range_succ]
        constructor
        · show updRow _ t _ j = _
          rw [updRow_miss _ _ hne]
          exact (ih j hj').1
        · show updV _ t _ j = _
          rw [updV_miss _ _ hne]
          exact (ih j hj').2
      · subst hj'
        exact ⟨rfl, rfl⟩


/-- The finalized row and norm produced by step `t` of the sequential
implementation, in terms of the previously finalized rows. -/
theorem seqRow_formula (sqrt : α → α) (nRows width : ℕ) (orth : Mat α)
    (norm : Vec α) (t : ℕ) :
    ((List.range (t + 1)).foldl (mgsRowStep sqrt width) (orth, norm)).1 t =
      (fun c => corrFold width
          (fun j => ((List.range (j + 1)).foldl (mgsRowStep sqrt width) (orth, norm)).1 j)
          t (orth t) c /
        sqrt (sumSq width (corrFold width
          (fun j => ((List.range (j + 1)).foldl (mgsRowStep sqrt width) (orth, norm)).1 j)
          t (orth t))))
    ∧ ((List.range (t + 1)).foldl (mgsRowStep sqrt width) (orth, norm)).2 t =
      sqrt (sumSq width (corrFold width
        (fun j => ((List.range (j + 1)).foldl (mgsRowStep sqrt width) (orth, norm)).1 j)
        t (orth t))) := by
  rw [foldl_range_succ]
  have hv :
      corrFold width
        (fun j => ((List.range t).foldl (mgsRowStep sqrt width) (orth, norm)).1 j) t
        (((List.range t).foldl (mgsRowStep sqrt width) (orth, norm)).1 t)
      = corrFold width
          (fun j => ((List.range (j + 1)).foldl (mgsRowStep sqrt width) (orth, norm)).1 j)
          t (orth t) := by
    rw [corrFold_congr width t _
      (fun j => ((List.range (j + 1)).foldl (mgsRowStep sqrt width) (orth, norm)).1 j)
      (fun j hj => (seq_stable sqrt nRows width orth norm t j hj).1)]
    rw [(seq_future sqrt nRows width orth norm t t le_rfl).1]
  constructor
  · show updRow _ t _ t = _
    rw [updRow_hit, hv]
  · show updV _ t _ t = _
    rw [updV_hit, hv]

/-- The invariant relating the early-projection (parallel) implementation
to the sequential one: after `t` steps the first `t` rows agree with the
sequential implementation's finalized rows, the remaining rows below
`nRows` carry the partial corrections against those rows, and rows at or
beyond `nRows` are untouched. -/
theorem par_invariant (sqrt : α → α) (nRows width : ℕ) (orth : Mat α)
    (norm : Vec α) :
    ∀ t, t ≤ nRows →
    (∀ r, ((List.range t).foldl (pmgsRowStep sqrt nRows width) (orth, norm)).1 r =
      if r < t then ((List.range (r + 1)).foldl (mgsRowStep sqrt width) (orth, norm)).1 r
      else if r < nRows then
        corrFold width
          (fun j => ((List.range (j + 1)).foldl (mgsRowStep sqrt width) (orth, norm)).1 j)
          t (orth r)
      else orth r)
    ∧ (∀ j, ((List.range t).foldl (pmgsRowStep sqrt nRows width) (orth, norm)).2 j =
      if j < t then ((List.range (j + 1)).foldl (mgsRowStep sqrt width) (orth, norm)).2 j
      else norm j) := by
  intro t
  induction t with
  | zero =>
      intro _
      constructor
      · intro r
        simp only [List.range_zero, List.foldl_nil, Nat.not_lt_zero, if_false]
        by_cases hr : r < nRows
        · rw [if_pos hr]; rfl
        · rw [if_neg hr]
      · intro j
        simp only [List.range_zero, List.foldl_nil, Nat.not_lt_zero, if_false]
  | succ t ih =>
      intro ht
      have ht' : t ≤ nRows := Nat.le_of_succ_le ht
      have htn : t < nRows := ht
      obtain ⟨ihr, ihn⟩ := ih ht'
      have hrowt :
          ((List.range t).foldl (pmgsRowStep sqrt nRows width) (orth, norm)).1 t =
            corrFold width
              (fun j => ((List.range (j + 1)).foldl (mgsRowStep sqrt width) (orth, norm)).1 j)
              t (orth t) := by
        rw [ihr t]
        rw [if_neg (lt_irrefl t), if_pos htn]
      have hq : (fun c =>
          ((List.range t).foldl (pmgsRowStep sqrt nRows width) (orth, norm)).1 t c /
            sqrt (sumSq width
              (((List.range t).foldl (pmgsRowStep sqrt nRows width) (orth, norm)).1 t)))
          = ((List.range (t + 1)).foldl (mgsRowStep sqrt width) (orth, norm)).1 t := by
        rw [hrowt, (seqRow_formula sqrt nRows width orth norm t).1]
      constructor
      · intro r
        rw [foldl_range_succ]
        funext c
        show (if r = t then _ else if t < r ∧ r < nRows then _ else _) = _
        by_cases hr : r = t
        · subst hr
          rw [if_pos rfl, if_pos (Nat.lt_succ_self r)]
          show _ / _ = _
          rw [hrowt, (seqRow_formula sqrt nRows width orth norm r).1]
        · rw [if_neg hr]
          by_cases hr2 : t < r ∧ r < nRows
          · rw [if_pos hr2, if_neg (by omega : ¬ r < t + 1), if_pos hr2.2]
            rw [corrFold_succ]
            show ((List.range t).foldl (pmgsRowStep sqrt nRows width) (orth, norm)).1 r c -
                _ * _ = _
            rw [ihr r, if_neg (by omega : ¬ r < t), if_pos hr2.2, hq, dotN_comm]
          · rw [if_neg hr2]
            by_cases hrt : r < t
            · rw [if_pos (Nat.lt_succ_of_lt hrt), ihr r, if_pos hrt]
            · have h5 : ¬ r < nRows := fun h5 => hr2 ⟨by omega, h5⟩
              rw [if_neg (by omega : ¬ r < t + 1), if_neg h5, ihr r, if_neg hrt,
                if_neg h5]
      · intro j
        rw [foldl_range_succ]
        show updV _ t _ j = _
        by_cases hj : j = t
        · subst hj
          rw [updV_hit, if_pos (Nat.lt_succ_self j)]
          rw [hrowt, (seqRow_formula sqrt nRows width orth norm j).2]
        · rw [updV_miss _ _ hj, ihn j]
          by_cases hj2 : j < t
          · rw [if_pos hj2, if_pos (Nat.lt_succ_of_lt hj2)]
          · rw [if_neg hj2, if_neg (by omega : ¬ j < t + 1)]


/-- C3: in exact arithmetic, the sequential late-projection MGS trait
implementation and the parallel early-projection variant produce identical
orthogonalized rows and identical norm vectors, for every input, every row
count, every row width, and every square-root function. -/
theorem c3_mgs_parallel_agree (sqrt : α → α) (nRows width : ℕ) (orth : Mat α)
    (norm : Vec α) :
    ModifiedGramSchmidtF64.compute_inplace sqrt nRows width orth norm =
    ParallelModifiedGramSchmidtF64.compute_inplace sqrt nRows width orth norm := by
  obtain ⟨hr, hn⟩ := par_invariant sqrt nRows width orth norm nRows le_rfl
  unfold ModifiedGramSchmidtF64.compute_inplace
    ParallelModifiedGramSchmidtF64.compute_inplace
  have h1 : ((List.range nRows).foldl (mgsRowStep sqrt width) (orth, norm)).1 =
      ((List.range nRows).foldl (pmgsRowStep sqrt nRows width) (orth, norm)).1 := by
    funext r c
    rw [hr r]
    by_cases h : r < nRows
    · rw [if_pos h, (seq_stable sqrt nRows width orth norm nRows r h).1]
    · rw [if_neg h, if_neg h, (seq_future sqrt nRows width orth norm nRows r (by omega)).1]
  have h2 : ((List.range nRows).foldl (mgsRowStep sqrt width) (orth, norm)).2 =
      ((List.range nRows).foldl (pmgsRowStep sqrt nRows width) (orth, norm)).2 := by
    funext j
    rw [hn j]
    by_cases h : j < nRows
    · rw [if_pos h, (seq_stable sqrt nRows width orth norm nRows j h).2]
    · rw [if_neg h, (seq_future sqrt nRows width orth norm nRows j (by omega)).2]
  exact Prod.ext h1 h2


/-! ## Claim theorems -/

/-- C1 (amended): for CGS and CGS2, a shape-mismatched input fails the
`assert_eq!` (before any numeric work and before the contiguity check), and
a shape-matched non-contiguous input panics `Array not contiguous!`; but a
shape-matched contiguous input is accepted regardless of whether its memory
layout matches the layout the engine was bound to at construction — no
layout-mismatch check exists (the strides assertion in the source is
commented out) and no dedicated layout error kind exists; construction from
a non-contiguous sample also fails.  `ModifiedGramSchmidt::compute`
performs no input validation at all (its model is a total function). -/
theorem c1_error_checks_amended (sqrt : α → α) (e : ClassicalGramSchmidt α)
    (e2 : ReorthogonalizedGramSchmidt α) (a : MatInput α) :
    (¬ (a.rows = e.qRows ∧ a.cols = e.qCols) →
      ClassicalGramSchmidt.compute sqrt e a = .error .shapeMismatch)
    ∧ (a.rows = e.qRows ∧ a.cols = e.qCols → a.contig = none →
      ClassicalGramSchmidt.compute sqrt e a = .error .nonContiguous)
    ∧ (∀ lay, a.rows = e.qRows ∧ a.cols = e.qCols → a.contig = some lay →
      isOkE (ClassicalGramSchmidt.compute sqrt e a) = true)
    ∧ (¬ (a.rows = e2.qRows ∧ a.cols = e2.qCols) →
      ReorthogonalizedGramSchmidt.compute sqrt e2 a = .error .shapeMismatch)
    ∧ (a.rows = e2.qRows ∧ a.cols = e2.qCols → a.contig = none →
      ReorthogonalizedGramSchmidt.compute sqrt e2 a = .error .nonContiguous)
    ∧ (∀ lay, a.rows = e2.qRows ∧ a.cols = e2.qCols → a.contig = some lay →
      isOkE (ReorthogonalizedGramSchmidt.compute sqrt e2 a) = true)
    ∧ (a.contig = none →
      ClassicalGramSchmidt.from_matrix a = (.error .nonContiguous :
        Except GSError (ClassicalGramSchmidt α))) := by
  refine ⟨?_, ?_, ?_, ?_, ?_, ?_, ?_⟩
  · intro h
    unfold ClassicalGramSchmidt.compute
    rw [if_neg h]
  · intro h hc
    unfold ClassicalGramSchmidt.compute
    rw [if_pos h, hc]
  · intro lay h hc
    unfold ClassicalGramSchmidt.compute
    rw [if_pos h, hc]
    rfl
  · intro h
    unfold ReorthogonalizedGramSchmidt.compute
    rw [if_neg h]
  · intro h hc
    unfold ReorthogonalizedGramSchmidt.compute
    rw [if_pos h, hc]
  · intro lay h hc
    unfold ReorthogonalizedGramSchmidt.compute
    rw [if_pos h, hc]
    rfl
  · intro hc
    unfold ClassicalGramSchmidt.from_matrix
    rw [hc]

/-- C1 witness: concrete instances of the amended behavior, obtained from
`c1_error_checks_amended`. -/
theorem c1_error_checks_witness :
    ClassicalGramSchmidt.compute ratSqrt
      (ClassicalGramSchmidt.from_shape 2 2 false) badShape32 =
      .error .shapeMismatch
    ∧ isOkE (ReorthogonalizedGramSchmidt.compute ratSqrt
      (ReorthogonalizedGramSchmidt.from_shape 2 2 false) wIn) = true :=
  ⟨(c1_error_checks_amended ratSqrt (ClassicalGramSchmidt.from_shape 2 2 false)
      (ReorthogonalizedGramSchmidt.from_shape 2 2 false) badShape32).1
      (by decide),
   ((c1_error_checks_amended ratSqrt (ClassicalGramSchmidt.from_shape 2 2 false)
      (ReorthogonalizedGramSchmidt.from_shape 2 2 false) wIn).2.2.2.2.2.1)
      Layout.rowMajor (by decide) (by decide)⟩

/-- C1 counterexample: the claim asserts that a matrix whose memory layout
differs from the engine's bound layout is rejected (`IncompatibleLayouts`);
but an engine bound to row-major layout accepts a column-major matrix of
the right shape and computes without reporting any error. -/
theorem c1_layout_mismatch_not_detected :
    isOkE (ClassicalGramSchmidt.compute ratSqrt
      (ClassicalGramSchmidt.from_shape 2 2 false) colMaj2) = true := by
  with_unfolding_all decide

/-- C4 (amended): after construction of any of the three engines for an
M-row, N-column problem — from a shape or from a sample matrix — the engine
owns an M×N matrix Q, an M×N matrix R (allocated with the *full* shape of
A, not N×N), and for CGS2 a scratch vector of length M. -/
theorem c4_engine_dimensions_amended (m n : ℕ) (f : Bool) (a : MatInput α) :
    ((ClassicalGramSchmidt.from_shape m n f : ClassicalGramSchmidt α).qRows = m
      ∧ (ClassicalGramSchmidt.from_shape m n f : ClassicalGramSchmidt α).qCols = n
      ∧ (ClassicalGramSchmidt.from_shape m n f : ClassicalGramSchmidt α).rRows = m
      ∧ (ClassicalGramSchmidt.from_shape m n f : ClassicalGramSchmidt α).rCols = n)
    ∧ ((ReorthogonalizedGramSchmidt.from_shape m n f :
          ReorthogonalizedGramSchmidt α).qRows = m
      ∧ (ReorthogonalizedGramSchmidt.from_shape m n f :
          ReorthogonalizedGramSchmidt α).rRows = m
      ∧ (ReorthogonalizedGramSchmidt.from_shape m n f :
          ReorthogonalizedGramSchmidt α).rCols = n
      ∧ (ReorthogonalizedGramSchmidt.from_shape m n f :
          ReorthogonalizedGramSchmidt α).workLen = m)
    ∧ ((ModifiedGramSchmidt.from_shape m n f : ModifiedGramSchmidt α).rRows = m
      ∧ (ModifiedGramSchmidt.from_shape m n f : ModifiedGramSchmidt α).rCols = n)
    ∧ (∀ e, ClassicalGramSchmidt.from_matrix a = .ok e →
      e.qRows = a.rows ∧ e.qCols = a.cols ∧ e.rRows = a.rows ∧ e.rCols = a.cols)
    ∧ (∀ e, ReorthogonalizedGramSchmidt.from_matrix a = .ok e →
      e.rRows = a.rows ∧ e.rCols = a.cols ∧ e.workLen = a.rows)
    ∧ (∀ e, ModifiedGramSchmidt.from_matrix a = .ok e →
      e.rRows = a.rows ∧ e.rCols = a.cols) := by
  refine ⟨⟨rfl, rfl, rfl, rfl⟩, ⟨rfl, rfl, rfl, rfl⟩, ⟨rfl, rfl⟩, ?_, ?_, ?_⟩
  · intro e he
    unfold ClassicalGramSchmidt.from_matrix at he
    rcases hc : a.contig with _ | lay <;> rw [hc] at he
    · exact absurd he (by intro h; cases h)
    · cases he
      exact ⟨rfl, rfl, rfl, rfl⟩
  · intro e he
    unfold ReorthogonalizedGramSchmidt.from_matrix at he
    rcases hc : a.contig with _ | lay <;> rw [hc] at he
    · exact absurd he (by intro h; cases h)
    · cases he
      exact ⟨rfl, rfl, rfl⟩
  · intro e he
    unfold ModifiedGramSchmidt.from_matrix at he
    rcases hc : a.contig with _ | lay <;> rw [hc] at he
    · exact absurd he (by intro h; cases h)
    · cases he
      exact ⟨rfl, rfl⟩

/-- C4 witness: the dimension facts at a concrete shape and sample. -/
theorem c4_engine_dimensions_witness :
    (ReorthogonalizedGramSchmidt.from_shape 3 2 false :
      ReorthogonalizedGramSchmidt ℚ).workLen = 3
    ∧ ∀ e, ClassicalGramSchmidt.from_matrix wIn = .ok e →
      e.rRows = 2 ∧ e.rCols = 2 :=
  ⟨(c4_engine_dimensions_amended 3 2 false (α := ℚ) wIn).2.1.2.2.2,
   fun e he => ⟨((c4_engine_dimensions_amended 3 2 false (α := ℚ) wIn).2.2.2.1
      e he).2.2.1, ((c4_engine_dimensions_amended 3 2 false (α := ℚ) wIn).2.2.2.1
      e he).2.2.2⟩⟩

/-- C4 counterexample: the claim says R is N×N for every engine instance;
but `ClassicalGramSchmidt::from_shape((3, 2), false)` allocates R with the
full 3×2 shape of A, so its row count is 3, not N = 2. -/
theorem c4_r_is_not_square :
    (ClassicalGramSchmidt.from_shape 3 2 false : ClassicalGramSchmidt ℚ).rRows = 3
    ∧ ¬ ((ClassicalGramSchmidt.from_shape 3 2 false :
      ClassicalGramSchmidt ℚ).rRows = 2) := by
  exact ⟨rfl, by decide⟩


/-- C5: in the CGS2 engine, for every column `i > 0` (of an M×N problem
with `i ≤ M`, arbitrary engine state, input, and stride), the second
projection-and-subtract pass is applied to the already-corrected column
against the same finalized columns `0..i-1`: the scratch vector receives
exactly the second-pass coefficients `projCoeff2` in its first `i` entries
(keeping its old contents beyond), R's column `i` above the diagonal
receives the sum of the first- and second-pass coefficient vectors, and
column `i` of Q becomes the twice-corrected column divided by its norm. -/
theorem c5_cgs2_second_pass (sqrt : α → α) (nRows : ℕ) (a : MatInput α)
    (inc : ℕ) (q r : Mat α) (w : Vec α) (i : ℕ) (hi : 0 < i) (hin : i ≤ nRows) :
    (∀ j, j < i → (cgs2ColumnStep sqrt nRows a inc (q, r, w) i).2.2 j =
      projCoeff2 nRows a inc q i j)
    ∧ (∀ j, ¬ j < i → (cgs2ColumnStep sqrt nRows a inc (q, r, w) i).2.2 j = w j)
    ∧ (∀ j, j < i → (cgs2ColumnStep sqrt nRows a inc (q, r, w) i).2.1 j i =
      projCoeff1 nRows a inc q i j + projCoeff2 nRows a inc q i j)
    ∧ (∀ k, k < nRows → (cgs2ColumnStep sqrt nRows a inc (q, r, w) i).1 k i =
      correctedCol2 nRows a inc q i k /
        sqrt (sumSq nRows (correctedCol2 nRows a inc q i))) :=
  cgs2ColumnStep_char sqrt nRows a inc q r w i hi hin

/-- C5 witness: the scratch-vector and R-column facts at a concrete state. -/
theorem c5_cgs2_second_pass_witness :
    (cgs2ColumnStep ratSqrt 2 wIn 2 (wQ, wR, wW) 1).2.2 0 =
      projCoeff2 2 wIn 2 wQ 1 0
    ∧ (cgs2ColumnStep ratSqrt 2 wIn 2 (wQ, wR, wW) 1).2.1 0 1 =
      projCoeff1 2 wIn 2 wQ 1 0 + projCoeff2 2 wIn 2 wQ 1 0 :=
  ⟨(c5_cgs2_second_pass ratSqrt 2 wIn 2 wQ wR wW 1 (by decide) (by decide)).1 0
      (by decide),
   (c5_cgs2_second_pass ratSqrt 2 wIn 2 wQ wR wW 1 (by decide)
      (by decide)).2.2.1 0 (by decide)⟩

/-- C6: in the sequential MGS engine, for every column index `i` and every
engine state, the current vector starts from A's column `i` and is
projected sequentially against each already-finalized column `j < i` one at
a time: the coefficient stored at `r[(j, i)]` is the dot product of
finalized column `j` with the vector as already corrected by stages
`0..j-1` (`lateStage`, never A's original column); only after all `j < i`
is the vector normalized, with `r[(i, i)]` set to its norm. -/
theorem c6_mgs_late_projection (sqrt : α → α) (nRows : ℕ) (a : MatInput α)
    (q r : Mat α) (i : ℕ) :
    (∀ j, j < i → (mgsColumnStep sqrt nRows a (q, r) i).2 j i =
      dotN nRows (fun k => q k j) (lateStage nRows q (fun k' => a.entry k' i) j))
    ∧ ((mgsColumnStep sqrt nRows a (q, r) i).2 i i =
      sqrt (sumSq nRows (lateStage nRows q (fun k' => a.entry k' i) i)))
    ∧ (∀ k, k < nRows → (mgsColumnStep sqrt nRows a (q, r) i).1 k i =
      lateStage nRows q (fun k' => a.entry k' i) i k /
        sqrt (sumSq nRows (lateStage nRows q (fun k' => a.entry k' i) i))) :=
  ⟨(mgsColumnStep_char sqrt nRows a q r i).1,
   (mgsColumnStep_char sqrt nRows a q r i).2.1,
   (mgsColumnStep_char sqrt nRows a q r i).2.2.1⟩

/-- C6 witness: the stored coefficient and the diagonal norm at a concrete
state. -/
theorem c6_mgs_late_projection_witness :
    (mgsColumnStep ratSqrt 2 wIn (wQ, wR) 1).2 0 1 =
      dotN 2 (fun k => wQ k 0) (lateStage 2 wQ (fun k' => wIn.entry k' 1) 0)
    ∧ (mgsColumnStep ratSqrt 2 wIn (wQ, wR) 1).2 1 1 =
      ratSqrt (sumSq 2 (lateStage 2 wQ (fun k' => wIn.entry k' 1) 1)) :=
  ⟨(c6_mgs_late_projection ratSqrt 2 wIn wQ wR 1).1 0 (by decide),
   (c6_mgs_late_projection ratSqrt 2 wIn wQ wR 1).2.1⟩

/-- C7: in the CGS engine, for every column index `i` and every engine
state, after the correction pass the column is divided by its Euclidean
norm, and the diagonal entry `r[(i, i)]` is then set to the dot product of
A's original column `i` with the *normalized* column — a fresh
recomputation, not the norm itself. -/
theorem c7_cgs_diagonal_recomputed (sqrt : α → α) (nRows : ℕ)
    (a : MatInput α) (inc : ℕ) (q r : Mat α) (i : ℕ) :
    (∀ k, k < nRows → (cgsColumnStep sqrt nRows a inc (q, r) i).1 k i =
      correctedCol1 nRows a inc q i k /
        sqrt (sumSq nRows (correctedCol1 nRows a inc q i)))
    ∧ ((cgsColumnStep sqrt nRows a inc (q, r) i).2 i i =
      dotN nRows (fun k => a.entry k i)
        (fun k => correctedCol1 nRows a inc q i k /
          sqrt (sumSq nRows (correctedCol1 nRows a inc q i)))) :=
  ⟨(cgsColumnStep_char sqrt nRows a inc q r i).1,
   (cgsColumnStep_char sqrt nRows a inc q r i).2.2.2.1⟩

/-- C7 witness: the normalized column entry and the recomputed diagonal at
a concrete state. -/
theorem c7_cgs_diagonal_recomputed_witness :
    (cgsColumnStep ratSqrt 2 wIn 2 (wQ, wR) 1).1 0 1 =
      correctedCol1 2 wIn 2 wQ 1 0 /
        ratSqrt (sumSq 2 (correctedCol1 2 wIn 2 wQ 1))
    ∧ (cgsColumnStep ratSqrt 2 wIn 2 (wQ, wR) 1).2 1 1 =
      dotN 2 (fun k => wIn.entry k 1)
        (fun k => correctedCol1 2 wIn 2 wQ 1 k /
          ratSqrt (sumSq 2 (correctedCol1 2 wIn 2 wQ 1))) :=
  ⟨(c7_cgs_diagonal_recomputed ratSqrt 2 wIn 2 wQ wR 1).1 0 (by decide),
   (c7_cgs_diagonal_recomputed ratSqrt 2 wIn 2 wQ wR 1).2⟩

/-- C8: on the 4×4 identity, all three engines accept the input and
produce Q and R both exactly equal to the 4×4 identity. -/
theorem c8_identity_exact :
    (isOkE (ClassicalGramSchmidt.compute ratSqrt
        (ClassicalGramSchmidt.from_shape 4 4 false) idIn4) = true
      ∧ matEq 4 4 (okElim (fun _ _ => 0) (fun e => e.q)
          (ClassicalGramSchmidt.compute ratSqrt
            (ClassicalGramSchmidt.from_shape 4 4 false) idIn4)) idM4
      ∧ matEq 4 4 (okElim (fun _ _ => 0) (fun e => e.r)
          (ClassicalGramSchmidt.compute ratSqrt
            (ClassicalGramSchmidt.from_shape 4 4 false) idIn4)) idM4)
    ∧ (isOkE (ReorthogonalizedGramSchmidt.compute ratSqrt
        (ReorthogonalizedGramSchmidt.from_shape 4 4 false) idIn4) = true
      ∧ matEq 4 4 (okElim (fun _ _ => 0) (fun e => e.q)
          (ReorthogonalizedGramSchmidt.compute ratSqrt
            (ReorthogonalizedGramSchmidt.from_shape 4 4 false) idIn4)) idM4
      ∧ matEq 4 4 (okElim (fun _ _ => 0) (fun e => e.r)
          (ReorthogonalizedGramSchmidt.compute ratSqrt
            (ReorthogonalizedGramSchmidt.from_shape 4 4 false) idIn4)) idM4)
    ∧ (matEq 4 4 (ModifiedGramSchmidt.compute ratSqrt
          (ModifiedGramSchmidt.from_shape 4 4 false) idIn4).q idM4
      ∧ matEq 4 4 (ModifiedGramSchmidt.compute ratSqrt
          (ModifiedGramSchmidt.from_shape 4 4 false) idIn4).r idM4) := by
  with_unfolding_all decide

/-- C2: the CGS2 engine is not idempotent across `compute` calls.  On
`stale4`, the strictly-lower entry `r[2, 1]` is 0 after the first call, but
nonzero after a second call with the same input: the `dirty` flag is never
set (so R is never cleared), the scratch vector is not cleared either, and
the daxpy adds `n_rows` scratch entries into R's column, so the previous
call's second-pass coefficients leak into R's strictly-lower triangle. -/
theorem c2_cgs2_recompute_leaks_stale_scratch :
    cgs2TwiceR21.1 = 0 ∧ ¬ (cgs2TwiceR21.2 = 0) := by
  with_unfolding_all decide

/-- C9 counterexample: the claim asserts that the CGS and MGS engines give
R diagonal ≈ [2.0615528128088303, …] on the matrix with columns
[2,0,0,0], [0.5,0.3,1,0], [0,0,0.7,0], [0,0,0,3]; but the engines
orthogonalize *columns*, whose first norm is exactly 2 (an exact
computation also in f64), so the first diagonal entry is 2, not ≈ 2.0615…;
the claimed values are the norms of the matrix's *rows*. -/
theorem c9_column_diag_counterexample :
    (ModifiedGramSchmidt.compute ratSqrt
      (ModifiedGramSchmidt.from_shape 4 4 false) bMat).r 0 0 = 2
    ∧ okElim 0 (fun e => e.r 0 0) (ClassicalGramSchmidt.compute ratSqrt
      (ClassicalGramSchmidt.from_shape 4 4 false) bMat) = 2
    ∧ ¬ (|(2 : ℚ) - 2.0615528128088303| < 1 / 100) := by
  with_unfolding_all decide

/-- C10 counterexample: the original claim quantifies over *every*
contiguous shape-matching input with a linearly dependent column and
asserts the computed norm is 0 there.  That universal is false: on the
contiguous row-major input with rows [1,2], [1,2] — whose second column
[2,2] is exactly twice the first column [1,1] — the MGS engine computes
a *nonzero* second diagonal entry, because the normalization of the first
column is inexact (sqrt 2 is not representable), so the projection does
not cancel the dependent column exactly.  The same mechanism operates in
f64: a generic dependent column leaves a small nonzero residual norm and
no NaN is produced. -/
theorem c10_dependent_column_counterexample :
    depCol2.entry 0 1 = 2 * depCol2.entry 0 0
    ∧ depCol2.entry 1 1 = 2 * depCol2.entry 1 0
    ∧ (ModifiedGramSchmidt.compute ratSqrt
      (ModifiedGramSchmidt.from_shape 2 2 false) depCol2).r 1 1 = 2
    ∧ ¬ (ModifiedGramSchmidt.compute ratSqrt
      (ModifiedGramSchmidt.from_shape 2 2 false) depCol2).r 1 1 = 0 := by
  with_unfolding_all decide

/-- C10 (amended): no engine performs a rank or zero-norm check, and no
error path depends on the matrix's values: every contiguous shape-matching
input is accepted by CGS and CGS2 whatever its entries (MGS performs no
checks at all and is total).  When a column's corrected residual is
*exactly* zero — e.g. a zero column — the computed norm is 0, the division
of the column by that zero norm executes unguarded, and compute still
returns normally: on a 2×2 input whose second column is zero, MGS stores 0
as R's second diagonal entry, CGS reports `.ok` with the same 0, CGS2
reports `.ok`, and the parallel row variant records norm 0.  (In the
exact-field model division by zero yields 0; in IEEE f64 the same
unguarded division fills the column with NaN.)  For a dependent but
nonzero column the computed norm is in general a nonzero residual, not 0
— see the counterexample theorem. -/
theorem c10_no_zero_norm_guard_amended :
    (∀ (m n : ℕ) (v : ℕ → ℕ → ℚ), isOkE (ClassicalGramSchmidt.compute ratSqrt
      (ClassicalGramSchmidt.from_shape m n false) ⟨m, n, v, some .rowMajor⟩) = true)
    ∧ (∀ (m n : ℕ) (v : ℕ → ℕ → ℚ), isOkE (ReorthogonalizedGramSchmidt.compute
      ratSqrt (ReorthogonalizedGramSchmidt.from_shape m n false)
      ⟨m, n, v, some .rowMajor⟩) = true)
    ∧ (ModifiedGramSchmidt.compute ratSqrt
      (ModifiedGramSchmidt.from_shape 2 2 false) zeroCol2).r 1 1 = 0
    ∧ isOkE (ClassicalGramSchmidt.compute ratSqrt
      (ClassicalGramSchmidt.from_shape 2 2 false) zeroCol2) = true
    ∧ okElim 1 (fun e => e.r 1 1) (ClassicalGramSchmidt.compute ratSqrt
      (ClassicalGramSchmidt.from_shape 2 2 false) zeroCol2) = 0
    ∧ isOkE (ReorthogonalizedGramSchmidt.compute ratSqrt
      (ReorthogonalizedGramSchmidt.from_shape 2 2 false) zeroCol2) = true
    ∧ (ParallelModifiedGramSchmidtF64.compute_inplace ratSqrt 2 2
      zeroCol2.entry (fun _ => 1)).2 1 = 0 := by
  refine ⟨fun m n v => ?_, fun m n v => ?_, ?_⟩
  · unfold ClassicalGramSchmidt.compute
    rw [if_pos ⟨rfl, rfl⟩]
    rfl
  · unfold ReorthogonalizedGramSchmidt.compute
    rw [if_pos ⟨rfl, rfl⟩]
    rfl
  · with_unfolding_all decide


theorem dotN_four (v w : Vec α) :
    dotN 4 v w = v 0 * w 0 + v 1 * w 1 + v 2 * w 2 + v 3 * w 3 := by
  unfold dotN
  rw [Finset.sum_range_succ, Finset.sum_range_succ, Finset.sum_range_succ,
    Finset.sum_range_succ, Finset.sum_range_zero]
  ring

theorem sumSq_four (v : Vec α) :
    sumSq 4 v = v 0 * v 0 + v 1 * v 1 + v 2 * v 2 + v 3 * v 3 := dotN_four v v

theorem lateStage_zero (nRows : ℕ) (q : Mat α) (v0 : Vec α) :
    lateStage nRows q v0 0 = v0 := rfl

theorem lateStage_succ (nRows : ℕ) (q : Mat α) (v0 : Vec α) (j : ℕ) :
    lateStage nRows q v0 (j + 1) = fun c =>
      lateStage nRows q v0 j c -
        dotN nRows (fun k => q k j) (lateStage nRows q v0 j) * q c j := rfl

/-- For a row-major input the `a_column` slice does address the logical
column `i` (offset `i`, stride `n_cols`). -/
theorem aColF_rowMajor (a : MatInput α) (h : a.contig = some .rowMajor)
    {i : ℕ} (hi : i < a.cols) (k : ℕ) : aColF a a.cols i k = a.entry k i := by
  unfold aColF aFlat
  rw [h]
  have h1 : (i + k * a.cols) / a.cols = k := by
    rw [Nat.add_mul_div_right _ _ (by omega : 0 < a.cols), Nat.div_eq_of_lt hi]
    omega
  have h2 : (i + k * a.cols) % a.cols = i := by
    rw [Nat.add_mul_mod_self_right, Nat.mod_eq_of_lt hi]
  rw [h1, h2]


theorem c9m_stage0 :
    (∀ j, j ≠ 0 → ∀ k, ((List.range 1).foldl
      (mgsColumnStep Real.sqrt 4 (castInput ℝ bMatT))
      ((fun _ _ => 0), (fun _ _ => 0))).1 k j = 0)
    ∧ ((List.range 1).foldl (mgsColumnStep Real.sqrt 4 (castInput ℝ bMatT))
      ((fun _ _ => 0), (fun _ _ => 0))).1 0 0 = 2 / Real.sqrt (17/4)
    ∧ ((List.range 1).foldl (mgsColumnStep Real.sqrt 4 (castInput ℝ bMatT))
      ((fun _ _ => 0), (fun _ _ => 0))).1 1 0 = (1/2) / Real.sqrt (17/4)
    ∧ ((List.range 1).foldl (mgsColumnStep Real.sqrt 4 (castInput ℝ bMatT))
      ((fun _ _ => 0), (fun _ _ => 0))).1 2 0 = 0
    ∧ ((List.range 1).foldl (mgsColumnStep Real.sqrt 4 (castInput ℝ bMatT))
      ((fun _ _ => 0), (fun _ _ => 0))).1 3 0 = 0
    ∧ ((List.range 1).foldl (mgsColumnStep Real.sqrt 4 (castInput ℝ bMatT))
      ((fun _ _ => 0), (fun _ _ => 0))).2 0 0 = Real.sqrt (17/4) := by
  have hch := mgsColumnStep_char (Real.sqrt) 4 (castInput ℝ bMatT)
    (fun _ _ => 0) (fun _ _ => 0) 0
  have hfold : (List.range 1).foldl (mgsColumnStep Real.sqrt 4 (castInput ℝ bMatT))
      ((fun _ _ => 0), (fun _ _ => 0)) =
      mgsColumnStep Real.sqrt 4 (castInput ℝ bMatT)
        ((fun _ _ => 0), (fun _ _ => 0)) 0 := by
    rw [show (1 : ℕ) = 0 + 1 from rfl, foldl_range_succ]
    rfl
  have hsq : sumSq 4 (lateStage 4 (fun _ _ => (0:ℝ))
      (fun k' => (castInput ℝ bMatT).entry k' 0) 0) = 17/4 := by
    rw [lateStage_zero, sumSq_four]
    norm_num [castInput, bMatT, bMat]
  refine ⟨?_, ?_, ?_, ?_, ?_, ?_⟩
  · intro j hj k
    rw [hfold]
    exact hch.2.2.2.1 k j hj
  · rw [hfold, hch.2.2.1 0 (by norm_num), hsq, lateStage_zero]
    norm_num [castInput, bMatT, bMat]
  · rw [hfold, hch.2.2.1 1 (by norm_num), hsq, lateStage_zero]
    norm_num [castInput, bMatT, bMat]
  · rw [hfold, hch.2.2.1 2 (by norm_num), hsq, lateStage_zero]
    norm_num [castInput, bMatT, bMat]
  · rw [hfold, hch.2.2.1 3 (by norm_num), hsq, lateStage_zero]
    norm_num [castInput, bMatT, bMat]
  · rw [hfold, hch.2.1, hsq]


theorem c9m_stage1 :
    (∀ j, j ≠ 0 → j ≠ 1 → ∀ k, ((List.range 2).foldl
      (mgsColumnStep Real.sqrt 4 (castInput ℝ bMatT))
      ((fun _ _ => 0), (fun _ _ => 0))).1 k j = 0)
    ∧ ((List.range 2).foldl (mgsColumnStep Real.sqrt 4 (castInput ℝ bMatT))
      ((fun _ _ => 0), (fun _ _ => 0))).1 0 0 = 2 / Real.sqrt (17/4)
    ∧ ((List.range 2).foldl (mgsColumnStep Real.sqrt 4 (castInput ℝ bMatT))
      ((fun _ _ => 0), (fun _ _ => 0))).1 1 0 = (1/2) / Real.sqrt (17/4)
    ∧ ((List.range 2).foldl (mgsColumnStep Real.sqrt 4 (castInput ℝ bMatT))
      ((fun _ _ => 0), (fun _ _ => 0))).1 2 0 = 0
    ∧ ((List.range 2).foldl (mgsColumnStep Real.sqrt 4 (castInput ℝ bMatT))
      ((fun _ _ => 0), (fun _ _ => 0))).1 3 0 = 0
    ∧ ((List.range 2).foldl (mgsColumnStep Real.sqrt 4 (castInput ℝ bMatT))
      ((fun _ _ => 0), (fun _ _ => 0))).1 0 1 = (-6/85) / Real.sqrt (612/7225)
    ∧ ((List.range 2).foldl (mgsColumnStep Real.sqrt 4 (castInput ℝ bMatT))
      ((fun _ _ => 0), (fun _ _ => 0))).1 1 1 = (24/85) / Real.sqrt (612/7225)
    ∧ ((List.range 2).foldl (mgsColumnStep Real.sqrt 4 (castInput ℝ bMatT))
      ((fun _ _ => 0), (fun _ _ => 0))).1 2 1 = 0
    ∧ ((List.range 2).foldl (mgsColumnStep Real.sqrt 4 (castInput ℝ bMatT))
      ((fun _ _ => 0), (fun _ _ => 0))).1 3 1 = 0
    ∧ ((List.range 2).foldl (mgsColumnStep Real.sqrt 4 (castInput ℝ bMatT))
      ((fun _ _ => 0), (fun _ _ => 0))).2 0 0 = Real.sqrt (17/4)
    ∧ ((List.range 2).foldl (mgsColumnStep Real.sqrt 4 (castInput ℝ bMatT))
      ((fun _ _ => 0), (fun _ _ => 0))).2 1 1 = Real.sqrt (612/7225) := by
  obtain ⟨p0, p1, p2, p3, p4, p5⟩ := c9m_stage0
  have hch := mgsColumnStep_char (Real.sqrt) 4 (castInput ℝ bMatT)
    ((List.range 1).foldl (mgsColumnStep Real.sqrt 4 (castInput ℝ bMatT))
      ((fun _ _ => 0), (fun _ _ => 0))).1
    ((List.range 1).foldl (mgsColumnStep Real.sqrt 4 (castInput ℝ bMatT))
      ((fun _ _ => 0), (fun _ _ => 0))).2 1
  have hfold : (List.range 2).foldl (mgsColumnStep Real.sqrt 4 (castInput ℝ bMatT))
      ((fun _ _ => 0), (fun _ _ => 0)) =
      mgsColumnStep Real.sqrt 4 (castInput ℝ bMatT)
        ((List.range 1).foldl (mgsColumnStep Real.sqrt 4 (castInput ℝ bMatT))
          ((fun _ _ => 0), (fun _ _ => 0))) 1 := by
    rw [show (2 : ℕ) = 1 + 1 from rfl, foldl_range_succ]
  have hs0pos : (0:ℝ) < Real.sqrt (17/4) := Real.sqrt_pos.mpr (by norm_num)
  have hs0ne : Real.sqrt (17/4) ≠ 0 := ne_of_gt hs0pos
  have hs0sq : Real.sqrt (17/4) * Real.sqrt (17/4) = 17/4 :=
    Real.mul_self_sqrt (by norm_num)
  have hmul0 : ∀ a b : ℝ,
      a / Real.sqrt (17/4) * (b / Real.sqrt (17/4)) = a * b / (17/4) := by
    intro a b
    rw [div_mul_div_comm, hs0sq]
  -- the projection coefficient of column 1 against finalized column 0
  have hpf : dotN 4
      (fun k => ((List.range 1).foldl (mgsColumnStep Real.sqrt 4 (castInput ℝ bMatT))
        ((fun _ _ => 0), (fun _ _ => 0))).1 k 0)
      (lateStage 4
        ((List.range 1).foldl (mgsColumnStep Real.sqrt 4 (castInput ℝ bMatT))
          ((fun _ _ => 0), (fun _ _ => 0))).1
        (fun k' => (castInput ℝ bMatT).entry k' 1) 0)
      = (3/20) / Real.sqrt (17/4) := by
    rw [lateStage_zero, dotN_four, p1, p2, p3, p4]
    show _ * ((_ : ℚ) : ℝ) + _ * ((_ : ℚ) : ℝ) + _ * ((_ : ℚ) : ℝ)
      + _ * ((_ : ℚ) : ℝ) = _
    norm_num [castInput, bMatT, bMat]
    rw [div_mul_eq_mul_div]
    norm_num
  -- the corrected column 1 stage values
  have hL : ∀ c, lateStage 4
      ((List.range 1).foldl (mgsColumnStep Real.sqrt 4 (castInput ℝ bMatT))
        ((fun _ _ => 0), (fun _ _ => 0))).1
      (fun k' => (castInput ℝ bMatT).entry k' 1) 1 c
      = (castInput ℝ bMatT).entry c 1 - (3/20) / Real.sqrt (17/4) *
        ((List.range 1).foldl (mgsColumnStep Real.sqrt 4 (castInput ℝ bMatT))
          ((fun _ _ => 0), (fun _ _ => 0))).1 c 0 := by
    intro c
    rw [lateStage_succ]
    show lateStage _ _ _ 0 c - _ * _ = _
    rw [hpf, lateStage_zero]
  have hL0 : lateStage 4
      ((List.range 1).foldl (mgsColumnStep Real.sqrt 4 (castInput ℝ bMatT))
        ((fun _ _ => 0), (fun _ _ => 0))).1
      (fun k' => (castInput ℝ bMatT).entry k' 1) 1 0 = -6/85 := by
    rw [hL 0, p1, hmul0]
    show ((_ : ℚ) : ℝ) - _ = _
    norm_num [castInput, bMatT, bMat]
  have hL1 : lateStage 4
      ((List.range 1).foldl (mgsColumnStep Real.sqrt 4 (castInput ℝ bMatT))
        ((fun _ _ => 0), (fun _ _ => 0))).1
      (fun k' => (castInput ℝ bMatT).entry k' 1) 1 1 = 24/85 := by
    rw [hL 1, p2, hmul0]
    show ((_ : ℚ) : ℝ) - _ = _
    norm_num [castInput, bMatT, bMat]
  have hL2 : lateStage 4
      ((List.range 1).foldl (mgsColumnStep Real.sqrt 4 (castInput ℝ bMatT))
        ((fun _ _ => 0), (fun _ _ => 0))).1
      (fun k' => (castInput ℝ bMatT).entry k' 1) 1 2 = 0 := by
    rw [hL 2, p3]
    show ((_ : ℚ) : ℝ) - _ = _
    norm_num [castInput, bMatT, bMat]
  have hL3 : lateStage 4
      ((List.range 1).foldl (mgsColumnStep Real.sqrt 4 (castInput ℝ bMatT))
        ((fun _ _ => 0), (fun _ _ => 0))).1
      (fun k' => (castInput ℝ bMatT).entry k' 1) 1 3 = 0 := by
    rw [hL 3, p4]
    show ((_ : ℚ) : ℝ) - _ = _
    norm_num [castInput, bMatT, bMat]
  have hsq : sumSq 4 (lateStage 4
      ((List.range 1).foldl (mgsColumnStep Real.sqrt 4 (castInput ℝ bMatT))
        ((fun _ _ => 0), (fun _ _ => 0))).1
      (fun k' => (castInput ℝ bMatT).entry k' 1) 1) = 612/7225 := by
    rw [sumSq_four, hL0, hL1, hL2, hL3]
    norm_num
  refine ⟨?_, ?_, ?_, ?_, ?_, ?_, ?_, ?_, ?_, ?_, ?_⟩
  · intro j hj0 hj1 k
    rw [hfold, hch.2.2.2.1 k j hj1]
    exact p0 j hj0 k
  · rw [hfold, hch.2.2.2.1 0 0 (by norm_num)]; exact p1
  · rw [hfold, hch.2.2.2.1 1 0 (by norm_num)]; exact p2
  · rw [hfold, hch.2.2.2.1 2 0 (by norm_num)]; exact p3
  · rw [hfold, hch.2.2.2.1 3 0 (by norm_num)]; exact p4
  · rw [hfold, hch.2.2.1 0 (by norm_num), hsq, hL0]
  · rw [hfold, hch.2.2.1 1 (by norm_num), hsq, hL1]
  · rw [hfold, hch.2.2.1 2 (by norm_num), hsq, hL2]
    norm_num
  · rw [hfold, hch.2.2.1 3 (by norm_num), hsq, hL3]
    norm_num
  · rw [hfold, hch.2.2.2.2.2 0 0 (by norm_num)]; exact p5
  · rw [hfold, hch.2.1, hsq]


theorem c9m_stage2 :
    ((List.range 3).foldl (mgsColumnStep Real.sqrt 4 (castInput ℝ bMatT))
      ((fun _ _ => 0), (fun _ _ => 0))).1 0 0 = 2 / Real.sqrt (17/4)
    ∧ ((List.range 3).foldl (mgsColumnStep Real.sqrt 4 (castInput ℝ bMatT))
      ((fun _ _ => 0), (fun _ _ => 0))).1 1 0 = (1/2) / Real.sqrt (17/4)
    ∧ ((List.range 3).foldl (mgsColumnStep Real.sqrt 4 (castInput ℝ bMatT))
      ((fun _ _ => 0), (fun _ _ => 0))).1 2 0 = 0
    ∧ ((List.range 3).foldl (mgsColumnStep Real.sqrt 4 (castInput ℝ bMatT))
      ((fun _ _ => 0), (fun _ _ => 0))).1 3 0 = 0
    ∧ ((List.range 3).foldl (mgsColumnStep Real.sqrt 4 (castInput ℝ bMatT))
      ((fun _ _ => 0), (fun _ _ => 0))).1 0 1 = (-6/85) / Real.sqrt (612/7225)
    ∧ ((List.range 3).foldl (mgsColumnStep Real.sqrt 4 (castInput ℝ bMatT))
      ((fun _ _ => 0), (fun _ _ => 0))).1 1 1 = (24/85) / Real.sqrt (612/7225)
    ∧ ((List.range 3).foldl (mgsColumnStep Real.sqrt 4 (castInput ℝ bMatT))
      ((fun _ _ => 0), (fun _ _ => 0))).1 2 1 = 0
    ∧ ((List.range 3).foldl (mgsColumnStep Real.sqrt 4 (castInput ℝ bMatT))
      ((fun _ _ => 0), (fun _ _ => 0))).1 3 1 = 0
    ∧ ((List.range 3).foldl (mgsColumnStep Real.sqrt 4 (castInput ℝ bMatT))
      ((fun _ _ => 0), (fun _ _ => 0))).1 0 2 = 0
    ∧ ((List.range 3).foldl (mgsColumnStep Real.sqrt 4 (castInput ℝ bMatT))
      ((fun _ _ => 0), (fun _ _ => 0))).1 1 2 = 0
    ∧ ((List.range 3).foldl (mgsColumnStep Real.sqrt 4 (castInput ℝ bMatT))
      ((fun _ _ => 0), (fun _ _ => 0))).1 2 2 = 1
    ∧ ((List.range 3).foldl (mgsColumnStep Real.sqrt 4 (castInput ℝ bMatT))
      ((fun _ _ => 0), (fun _ _ => 0))).1 3 2 = 0
    ∧ (∀ j, j ≠ 0 → j ≠ 1 → j ≠ 2 → ∀ k, ((List.range 3).foldl
      (mgsColumnStep Real.sqrt 4 (castInput ℝ bMatT))
      ((fun _ _ => 0), (fun _ _ => 0))).1 k j = 0)
    ∧ ((List.range 3).foldl (mgsColumnStep Real.sqrt 4 (castInput ℝ bMatT))
      ((fun _ _ => 0), (fun _ _ => 0))).2 0 0 = Real.sqrt (17/4)
    ∧ ((List.range 3).foldl (mgsColumnStep Real.sqrt 4 (castInput ℝ bMatT))
      ((fun _ _ => 0), (fun _ _ => 0))).2 1 1 = Real.sqrt (612/7225)
    ∧ ((List.range 3).foldl (mgsColumnStep Real.sqrt 4 (castInput ℝ bMatT))
      ((fun _ _ => 0), (fun _ _ => 0))).2 2 2 = 7/10 := by
  obtain ⟨q0, q1, q2, q3, q4, q5, q6, q7, q8, q9, q10⟩ := c9m_stage1
  have hch := mgsColumnStep_char (Real.sqrt) 4 (castInput ℝ bMatT)
    ((List.range 2).foldl (mgsColumnStep Real.sqrt 4 (castInput ℝ bMatT))
      ((fun _ _ => 0), (fun _ _ => 0))).1
    ((List.range 2).foldl (mgsColumnStep Real.sqrt 4 (castInput ℝ bMatT))
      ((fun _ _ => 0), (fun _ _ => 0))).2 2
  have hfold : (List.range 3).foldl (mgsColumnStep Real.sqrt 4 (castInput ℝ bMatT))
      ((fun _ _ => 0), (fun _ _ => 0)) =
      mgsColumnStep Real.sqrt 4 (castInput ℝ bMatT)
        ((List.range 2).foldl (mgsColumnStep Real.sqrt 4 (castInput ℝ bMatT))
          ((fun _ _ => 0), (fun _ _ => 0))) 2 := by
    rw [show (3 : ℕ) = 2 + 1 from rfl, foldl_range_succ]
  have hs0sq : Real.sqrt (17/4) * Real.sqrt (17/4) = 17/4 :=
    Real.mul_self_sqrt (by norm_num)
  have hs1ne : Real.sqrt (612/7225) ≠ 0 :=
    ne_of_gt (Real.sqrt_pos.mpr (by norm_num))
  have hs1sq : Real.sqrt (612/7225) * Real.sqrt (612/7225) = 612/7225 :=
    Real.mul_self_sqrt (by norm_num)
  have hmul0 : ∀ a b : ℝ,
      a / Real.sqrt (17/4) * (b / Real.sqrt (17/4)) = a * b / (17/4) := by
    intro a b
    rw [div_mul_div_comm, hs0sq]
  have hmul1 : ∀ a b : ℝ,
      a / Real.sqrt (612/7225) * (b / Real.sqrt (612/7225)) = a * b / (612/7225) := by
    intro a b
    rw [div_mul_div_comm, hs1sq]
  have hpf0 : dotN 4
      (fun k => ((List.range 2).foldl (mgsColumnStep Real.sqrt 4 (castInput ℝ bMatT))
        ((fun _ _ => 0), (fun _ _ => 0))).1 k 0)
      (lateStage 4
        ((List.range 2).foldl (mgsColumnStep Real.sqrt 4 (castInput ℝ bMatT))
          ((fun _ _ => 0), (fun _ _ => 0))).1
        (fun k' => (castInput ℝ bMatT).entry k' 2) 0)
      = (1/2) / Real.sqrt (17/4) := by
    rw [lateStage_zero, dotN_four, q1, q2, q3, q4]
    show _ * ((_ : ℚ) : ℝ) + _ * ((_ : ℚ) : ℝ) + _ * ((_ : ℚ) : ℝ)
      + _ * ((_ : ℚ) : ℝ) = _
    norm_num [castInput, bMatT, bMat]
  have hM : ∀ c, lateStage 4
      ((List.range 2).foldl (mgsColumnStep Real.sqrt 4 (castInput ℝ bMatT))
        ((fun _ _ => 0), (fun _ _ => 0))).1
      (fun k' => (castInput ℝ bMatT).entry k' 2) 1 c
      = (castInput ℝ bMatT).entry c 2 - (1/2) / Real.sqrt (17/4) *
        ((List.range 2).foldl (mgsColumnStep Real.sqrt 4 (castInput ℝ bMatT))
          ((fun _ _ => 0), (fun _ _ => 0))).1 c 0 := by
    intro c
    rw [lateStage_succ]
    show lateStage _ _ _ 0 c - _ * _ = _
    rw [hpf0, lateStage_zero]
  have hM0 : lateStage 4
      ((List.range 2).foldl (mgsColumnStep Real.sqrt 4 (castInput ℝ bMatT))
        ((fun _ _ => 0), (fun _ _ => 0))).1
      (fun k' => (castInput ℝ bMatT).entry k' 2) 1 0 = -4/17 := by
    rw [hM 0, q1, hmul0]
    show ((_ : ℚ) : ℝ) - _ = _
    norm_num [castInput, bMatT, bMat]
  have hM1 : lateStage 4
      ((List.range 2).foldl (mgsColumnStep Real.sqrt 4 (castInput ℝ bMatT))
        ((fun _ _ => 0), (fun _ _ => 0))).1
      (fun k' => (castInput ℝ bMatT).entry k' 2) 1 1 = 16/17 := by
    rw [hM 1, q2, hmul0]
    show ((_ : ℚ) : ℝ) - _ = _
    norm_num [castInput, bMatT, bMat]
  have hM2 : lateStage 4
      ((List.range 2).foldl (mgsColumnStep Real.sqrt 4 (castInput ℝ bMatT))
        ((fun _ _ => 0), (fun _ _ => 0))).1
      (fun k' => (castInput ℝ bMatT).entry k' 2) 1 2 = 7/10 := by
    rw [hM 2, q3]
    show ((_ : ℚ) : ℝ) - _ = _
    norm_num [castInput, bMatT, bMat]
  have hM3 : lateStage 4
      ((List.range 2).foldl (mgsColumnStep Real.sqrt 4 (castInput ℝ bMatT))
        ((fun _ _ => 0), (fun _ _ => 0))).1
      (fun k' => (castInput ℝ bMatT).entry k' 2) 1 3 = 0 := by
    rw [hM 3, q4]
    show ((_ : ℚ) : ℝ) - _ = _
    norm_num [castInput, bMatT, bMat]
  have hpf1 : dotN 4
      (fun k => ((List.range 2).foldl (mgsColumnStep Real.sqrt 4 (castInput ℝ bMatT))
        ((fun _ _ => 0), (fun _ _ => 0))).1 k 1)
      (lateStage 4
        ((List.range 2).foldl (mgsColumnStep Real.sqrt 4 (castInput ℝ bMatT))
          ((fun _ _ => 0), (fun _ _ => 0))).1
        (fun k' => (castInput ℝ bMatT).entry k' 2) 1)
      = (24/85) / Real.sqrt (612/7225) := by
    rw [dotN_four, q5, q6, q7, q8, hM0, hM1, hM2, hM3]
    field_simp
    ring
  have hN : ∀ c, lateStage 4
      ((List.range 2).foldl (mgsColumnStep Real.sqrt 4 (castInput ℝ bMatT))
        ((fun _ _ => 0), (fun _ _ => 0))).1
      (fun k' => (castInput ℝ bMatT).entry k' 2) 2 c
      = lateStage 4
        ((List.range 2).foldl (mgsColumnStep Real.sqrt 4 (castInput ℝ bMatT))
          ((fun _ _ => 0), (fun _ _ => 0))).1
        (fun k' => (castInput ℝ bMatT).entry k' 2) 1 c -
        (24/85) / Real.sqrt (612/7225) *
        ((List.range 2).foldl (mgsColumnStep Real.sqrt 4 (castInput ℝ bMatT))
          ((fun _ _ => 0), (fun _ _ => 0))).1 c 1 := by
    intro c
    rw [lateStage_succ]
    show lateStage _ _ _ 1 c - _ * _ = _
    rw [hpf1]
  have hN0 : lateStage 4
      ((List.range 2).foldl (mgsColumnStep Real.sqrt 4 (castInput ℝ bMatT))
        ((fun _ _ => 0), (fun _ _ => 0))).1
      (fun k' => (castInput ℝ bMatT).entry k' 2) 2 0 = 0 := by
    rw [hN 0, hM0, q5, hmul1]
    norm_num
  have hN1 : lateStage 4
      ((List.range 2).foldl (mgsColumnStep Real.sqrt 4 (castInput ℝ bMatT))
        ((fun _ _ => 0), (fun _ _ => 0))).1
      (fun k' => (castInput ℝ bMatT).entry k' 2) 2 1 = 0 := by
    rw [hN 1, hM1, q6, hmul1]
    norm_num
  have hN2 : lateStage 4
      ((List.range 2).foldl (mgsColumnStep Real.sqrt 4 (castInput ℝ bMatT))
        ((fun _ _ => 0), (fun _ _ => 0))).1
      (fun k' => (castInput ℝ bMatT).entry k' 2) 2 2 = 7/10 := by
    rw [hN 2, hM2, q7]
    norm_num
  have hN3 : lateStage 4
      ((List.range 2).foldl (mgsColumnStep Real.sqrt 4 (castInput ℝ bMatT))
        ((fun _ _ => 0), (fun _ _ => 0))).1
      (fun k' => (castInput ℝ bMatT).entry k' 2) 2 3 = 0 := by
    rw [hN 3, hM3, q8]
    norm_num
  have hsq : sumSq 4 (lateStage 4
      ((List.range 2).foldl (mgsColumnStep Real.sqrt 4 (castInput ℝ bMatT))
        ((fun _ _ => 0), (fun _ _ => 0))).1
      (fun k' => (castInput ℝ bMatT).entry k' 2) 2) = 49/100 := by
    rw [sumSq_four, hN0, hN1, hN2, hN3]
    norm_num
  have h710 : Real.sqrt (49/100) = 7/10 := by
    rw [show (49:ℝ)/100 = (7/10)^2 by norm_num, Real.sqrt_sq (by norm_num)]
  refine ⟨?_, ?_, ?_, ?_, ?_, ?_, ?_, ?_, ?_, ?_, ?_, ?_, ?_, ?_, ?_, ?_⟩
  · rw [hfold, hch.2.2.2.1 0 0 (by norm_num)]; exact q1
  · rw [hfold, hch.2.2.2.1 1 0 (by norm_num)]; exact q2
  · rw [hfold, hch.2.2.2.1 2 0 (by norm_num)]; exact q3
  · rw [hfold, hch.2.2.2.1 3 0 (by norm_num)]; exact q4
  · rw [hfold, hch.2.2.2.1 0 1 (by norm_num)]; exact q5
  · rw [hfold, hch.2.2.2.1 1 1 (by norm_num)]; exact q6
  · rw [hfold, hch.2.2.2.1 2 1 (by norm_num)]; exact q7
  · rw [hfold, hch.2.2.2.1 3 1 (by norm_num)]; exact q8
  · rw [hfold, hch.2.2.1 0 (by norm_num), hsq, hN0, h710]
    norm_num
  · rw [hfold, hch.2.2.1 1 (by norm_num), hsq, hN1, h710]
    norm_num
  · rw [hfold, hch.2.2.1 2 (by norm_num), hsq, hN2, h710]
    norm_num
  · rw [hfold, hch.2.2.1 3 (by norm_num), hsq, hN3, h710]
    norm_num
  · intro j hj0 hj1 hj2 k
    rw [hfold, hch.2.2.2.1 k j hj2]
    exact q0 j hj0 hj1 k
  · rw [hfold, hch.2.2.2.2.2 0 0 (by norm_num)]; exact q9
  · rw [hfold, hch.2.2.2.2.2 1 1 (by norm_num)]; exact q10
  · rw [hfold, hch.2.1, hsq, h710]


/-- The R diagonal produced by the MGS engine on the transpose of `bMat`
over the reals. -/
theorem c9m_final :
    ((List.range 4).foldl (mgsColumnStep Real.sqrt 4 (castInput ℝ bMatT))
      ((fun _ _ => 0), (fun _ _ => 0))).2 0 0 = Real.sqrt (17/4)
    ∧ ((List.range 4).foldl (mgsColumnStep Real.sqrt 4 (castInput ℝ bMatT))
      ((fun _ _ => 0), (fun _ _ => 0))).2 1 1 = Real.sqrt (612/7225)
    ∧ ((List.range 4).foldl (mgsColumnStep Real.sqrt 4 (castInput ℝ bMatT))
      ((fun _ _ => 0), (fun _ _ => 0))).2 2 2 = 7/10
    ∧ ((List.range 4).foldl (mgsColumnStep Real.sqrt 4 (castInput ℝ bMatT))
      ((fun _ _ => 0), (fun _ _ => 0))).2 3 3 = 3 := by
  obtain ⟨u1, u2, u3, u4, u5, u6, u7, u8, u9, u10, u11, u12, u0, ur0, ur1, ur2⟩ :=
    c9m_stage2
  have hch := mgsColumnStep_char (Real.sqrt) 4 (castInput ℝ bMatT)
    ((List.range 3).foldl (mgsColumnStep Real.sqrt 4 (castInput ℝ bMatT))
      ((fun _ _ => 0), (fun _ _ => 0))).1
    ((List.range 3).foldl (mgsColumnStep Real.sqrt 4 (castInput ℝ bMatT))
      ((fun _ _ => 0), (fun _ _ => 0))).2 3
  have hfold : (List.range 4).foldl (mgsColumnStep Real.sqrt 4 (castInput ℝ bMatT))
      ((fun _ _ => 0), (fun _ _ => 0)) =
      mgsColumnStep Real.sqrt 4 (castInput ℝ bMatT)
        ((List.range 3).foldl (mgsColumnStep Real.sqrt 4 (castInput ℝ bMatT))
          ((fun _ _ => 0), (fun _ _ => 0))) 3 := by
    rw [show (4 : ℕ) = 3 + 1 from rfl, foldl_range_succ]
  have hpf0 : dotN 4
      (fun k => ((List.range 3).foldl (mgsColumnStep Real.sqrt 4 (castInput ℝ bMatT))
        ((fun _ _ => 0), (fun _ _ => 0))).1 k 0)
      (lateStage 4
        ((List.range 3).foldl (mgsColumnStep Real.sqrt 4 (castInput ℝ bMatT))
          ((fun _ _ => 0), (fun _ _ => 0))).1
        (fun k' => (castInput ℝ bMatT).entry k' 3) 0) = 0 := by
    rw [lateStage_zero, dotN_four, u1, u2, u3, u4]
    show _ * ((_ : ℚ) : ℝ) + _ * ((_ : ℚ) : ℝ) + _ * ((_ : ℚ) : ℝ)
      + _ * ((_ : ℚ) : ℝ) = _
    norm_num [castInput, bMatT, bMat]
  have hM : ∀ c, lateStage 4
      ((List.range 3).foldl (mgsColumnStep Real.sqrt 4 (castInput ℝ bMatT))
        ((fun _ _ => 0), (fun _ _ => 0))).1
      (fun k' => (castInput ℝ bMatT).entry k' 3) 1 c
      = (castInput ℝ bMatT).entry c 3 := by
    intro c
    rw [lateStage_succ]
    show lateStage _ _ _ 0 c - _ * _ = _
    rw [hpf0, lateStage_zero]
    ring
  have hpf1 : dotN 4
      (fun k => ((List.range 3).foldl (mgsColumnStep Real.sqrt 4 (castInput ℝ bMatT))
        ((fun _ _ => 0), (fun _ _ => 0))).1 k 1)
      (lateStage 4
        ((List.range 3).foldl (mgsColumnStep Real.sqrt 4 (castInput ℝ bMatT))
          ((fun _ _ => 0), (fun _ _ => 0))).1
        (fun k' => (castInput ℝ bMatT).entry k' 3) 1) = 0 := by
    rw [dotN_four, u5, u6, u7, u8, hM 0, hM 1, hM 2, hM 3]
    show _ * ((_ : ℚ) : ℝ) + _ * ((_ : ℚ) : ℝ) + _ * ((_ : ℚ) : ℝ)
      + _ * ((_ : ℚ) : ℝ) = _
    norm_num [castInput, bMatT, bMat]
  have hN : ∀ c, lateStage 4
      ((List.range 3).foldl (mgsColumnStep Real.sqrt 4 (castInput ℝ bMatT))
        ((fun _ _ => 0), (fun _ _ => 0))).1
      (fun k' => (castInput ℝ bMatT).entry k' 3) 2 c
      = (castInput ℝ bMatT).entry c 3 := by
    intro c
    rw [lateStage_succ]
    show lateStage _ _ _ 1 c - _ * _ = _
    rw [hpf1, hM c]
    ring
  have hpf2 : dotN 4
      (fun k => ((List.range 3).foldl (mgsColumnStep Real.sqrt 4 (castInput ℝ bMatT))
        ((fun _ _ => 0), (fun _ _ => 0))).1 k 2)
      (lateStage 4
        ((List.range 3).foldl (mgsColumnStep Real.sqrt 4 (castInput ℝ bMatT))
          ((fun _ _ => 0), (fun _ _ => 0))).1
        (fun k' => (castInput ℝ bMatT).entry k' 3) 2) = 0 := by
    rw [dotN_four, u9, u10, u11, u12, hN 0, hN 1, hN 2, hN 3]
    show _ * ((_ : ℚ) : ℝ) + _ * ((_ : ℚ) : ℝ) + _ * ((_ : ℚ) : ℝ)
      + _ * ((_ : ℚ) : ℝ) = _
    norm_num [castInput, bMatT, bMat]
  have hP : ∀ c, lateStage 4
      ((List.range 3).foldl (mgsColumnStep Real.sqrt 4 (castInput ℝ bMatT))
        ((fun _ _ => 0), (fun _ _ => 0))).1
      (fun k' => (castInput ℝ bMatT).entry k' 3) 3 c
      = (castInput ℝ bMatT).entry c 3 := by
    intro c
    rw [lateStage_succ]
    show lateStage _ _ _ 2 c - _ * _ = _
    rw [hpf2, hN c]
    ring
  have hsq : sumSq 4 (lateStage 4
      ((List.range 3).foldl (mgsColumnStep Real.sqrt 4 (castInput ℝ bMatT))
        ((fun _ _ => 0), (fun _ _ => 0))).1
      (fun k' => (castInput ℝ bMatT).entry k' 3) 3) = 9 := by
    rw [sumSq_four, hP 0, hP 1, hP 2, hP 3]
    show ((_ : ℚ) : ℝ) * ((_ : ℚ) : ℝ) + ((_ : ℚ) : ℝ) * ((_ : ℚ) : ℝ)
      + ((_ : ℚ) : ℝ) * ((_ : ℚ) : ℝ) + ((_ : ℚ) : ℝ) * ((_ : ℚ) : ℝ) = _
    norm_num [castInput, bMatT, bMat]
  have h3 : Real.sqrt 9 = 3 := by
    rw [show (9:ℝ) = 3^2 by norm_num, Real.sqrt_sq (by norm_num)]
  refine ⟨?_, ?_, ?_, ?_⟩
  · rw [hfold, hch.2.2.2.2.2 0 0 (by norm_num)]; exact ur0
  · rw [hfold, hch.2.2.2.2.2 1 1 (by norm_num)]; exact ur1
  · rw [hfold, hch.2.2.2.2.2 2 2 (by norm_num)]; exact ur2
  · rw [hfold, hch.2.1, hsq, h3]


/-- The batch-corrected first column of the CGS engine on the transposed
matrix: no previous columns, so it is A's column 0. -/
theorem c9c_stage0 :
    (∀ j, j ≠ 0 → ∀ k, ((List.range 1).foldl
      (cgsColumnStep Real.sqrt 4 (castInput ℝ bMatT) 4)
      ((fun _ _ => 0), (fun _ _ => 0))).1 k j = 0)
    ∧ ((List.range 1).foldl (cgsColumnStep Real.sqrt 4 (castInput ℝ bMatT) 4)
      ((fun _ _ => 0), (fun _ _ => 0))).1 0 0 = 2 / Real.sqrt (17/4)
    ∧ ((List.range 1).foldl (cgsColumnStep Real.sqrt 4 (castInput ℝ bMatT) 4)
      ((fun _ _ => 0), (fun _ _ => 0))).1 1 0 = (1/2) / Real.sqrt (17/4)
    ∧ ((List.range 1).foldl (cgsColumnStep Real.sqrt 4 (castInput ℝ bMatT) 4)
      ((fun _ _ => 0), (fun _ _ => 0))).1 2 0 = 0
    ∧ ((List.range 1).foldl (cgsColumnStep Real.sqrt 4 (castInput ℝ bMatT) 4)
      ((fun _ _ => 0), (fun _ _ => 0))).1 3 0 = 0
    ∧ ((List.range 1).foldl (cgsColumnStep Real.sqrt 4 (castInput ℝ bMatT) 4)
      ((fun _ _ => 0), (fun _ _ => 0))).2 0 0 = Real.sqrt (17/4) := by
  have hch := cgsColumnStep_char (Real.sqrt) 4 (castInput ℝ bMatT) 4
    (fun _ _ => 0) (fun _ _ => 0) 0
  have hfold : (List.range 1).foldl (cgsColumnStep Real.sqrt 4 (castInput ℝ bMatT) 4)
      ((fun _ _ => 0), (fun _ _ => 0)) =
      cgsColumnStep Real.sqrt 4 (castInput ℝ bMatT) 4
        ((fun _ _ => 0), (fun _ _ => 0)) 0 := by
    rw [show (1 : ℕ) = 0 + 1 from rfl, foldl_range_succ]
    rfl
  have hcc : ∀ k, correctedCol1 4 (castInput ℝ bMatT) 4 (fun _ _ => 0) 0 k
      = (castInput ℝ bMatT).entry k 0 := by
    intro k
    unfold correctedCol1
    rw [Finset.sum_range_zero]
    ring
  have hsq : sumSq 4 (correctedCol1 4 (castInput ℝ bMatT) 4 (fun _ _ => 0) 0)
      = 17/4 := by
    rw [sumSq_four, hcc 0, hcc 1, hcc 2, hcc 3]
    show ((_ : ℚ) : ℝ) * ((_ : ℚ) : ℝ) + ((_ : ℚ) : ℝ) * ((_ : ℚ) : ℝ)
      + ((_ : ℚ) : ℝ) * ((_ : ℚ) : ℝ) + ((_ : ℚ) : ℝ) * ((_ : ℚ) : ℝ) = _
    norm_num [castInput, bMatT, bMat]
  have hs0ne : Real.sqrt (17/4) ≠ 0 :=
    ne_of_gt (Real.sqrt_pos.mpr (by norm_num))
  refine ⟨?_, ?_, ?_, ?_, ?_, ?_⟩
  · intro j hj k
    rw [hfold]
    exact hch.2.1 k j hj
  · rw [hfold, hch.1 0 (by norm_num), hsq, hcc 0]
    norm_num [castInput, bMatT, bMat]
  · rw [hfold, hch.1 1 (by norm_num), hsq, hcc 1]
    norm_num [castInput, bMatT, bMat]
  · rw [hfold, hch.1 2 (by norm_num), hsq, hcc 2]
    norm_num [castInput, bMatT, bMat]
  · rw [hfold, hch.1 3 (by norm_num), hsq, hcc 3]
    norm_num [castInput, bMatT, bMat]
  · rw [hfold, hch.2.2.2.1, hsq]
    rw [dotN_four, hcc 0, hcc 1, hcc 2, hcc 3]
    have e0 : (castInput ℝ bMatT).entry 0 0 = 2 := by
      show ((_ : ℚ) : ℝ) = _; norm_num [bMatT, bMat]
    have e1 : (castInput ℝ bMatT).entry 1 0 = 1/2 := by
      show ((_ : ℚ) : ℝ) = _; norm_num [bMatT, bMat]
    have e2 : (castInput ℝ bMatT).entry 2 0 = 0 := by
      show ((_ : ℚ) : ℝ) = _; norm_num [bMatT, bMat]
    have e3 : (castInput ℝ bMatT).entry 3 0 = 0 := by
      show ((_ : ℚ) : ℝ) = _; norm_num [bMatT, bMat]
    rw [e0, e1, e2, e3]
    rw [show (2:ℝ) * (2 / Real.sqrt (17/4)) + 1/2 * (1/2 / Real.sqrt (17/4))
      + 0 * (0 / Real.sqrt (17/4)) + 0 * (0 / Real.sqrt (17/4))
      = (17/4) / Real.sqrt (17/4) by ring]
    exact Real.div_sqrt


theorem c9_aColF_entry (i : ℕ) (hi : i < 4) (f : Vec ℝ) :
    dotN 4 f (aColF (castInput ℝ bMatT) 4 i) =
      dotN 4 f (fun k => (castInput ℝ bMatT).entry k i) :=
  dotN_congr 4 (fun _ _ => rfl)
    (fun k _ => aColF_rowMajor (castInput ℝ bMatT) rfl hi k)

theorem c9c_stage1 :
    ((List.range 2).foldl (cgsColumnStep Real.sqrt 4 (castInput ℝ bMatT) 4)
      ((fun _ _ => 0), (fun _ _ => 0))).1 0 0 = 2 / Real.sqrt (17/4)
    ∧ ((List.range 2).foldl (cgsColumnStep Real.sqrt 4 (castInput ℝ bMatT) 4)
      ((fun _ _ => 0), (fun _ _ => 0))).1 1 0 = (1/2) / Real.sqrt (17/4)
    ∧ ((List.range 2).foldl (cgsColumnStep Real.sqrt 4 (castInput ℝ bMatT) 4)
      ((fun _ _ => 0), (fun _ _ => 0))).1 2 0 = 0
    ∧ ((List.range 2).foldl (cgsColumnStep Real.sqrt 4 (castInput ℝ bMatT) 4)
      ((fun _ _ => 0), (fun _ _ => 0))).1 3 0 = 0
    ∧ ((List.range 2).foldl (cgsColumnStep Real.sqrt 4 (castInput ℝ bMatT) 4)
      ((fun _ _ => 0), (fun _ _ => 0))).1 0 1 = (-6/85) / Real.sqrt (612/7225)
    ∧ ((List.range 2).foldl (cgsColumnStep Real.sqrt 4 (castInput ℝ bMatT) 4)
      ((fun _ _ => 0), (fun _ _ => 0))).1 1 1 = (24/85) / Real.sqrt (612/7225)
    ∧ ((List.range 2).foldl (cgsColumnStep Real.sqrt 4 (castInput ℝ bMatT) 4)
      ((fun _ _ => 0), (fun _ _ => 0))).1 2 1 = 0
    ∧ ((List.range 2).foldl (cgsColumnStep Real.sqrt 4 (castInput ℝ bMatT) 4)
      ((fun _ _ => 0), (fun _ _ => 0))).1 3 1 = 0
    ∧ (∀ j, j ≠ 0 → j ≠ 1 → ∀ k, ((List.range 2).foldl
      (cgsColumnStep Real.sqrt 4 (castInput ℝ bMatT) 4)
      ((fun _ _ => 0), (fun _ _ => 0))).1 k j = 0)
    ∧ ((List.range 2).foldl (cgsColumnStep Real.sqrt 4 (castInput ℝ bMatT) 4)
      ((fun _ _ => 0), (fun _ _ => 0))).2 0 0 = Real.sqrt (17/4)
    ∧ ((List.range 2).foldl (cgsColumnStep Real.sqrt 4 (castInput ℝ bMatT) 4)
      ((fun _ _ => 0), (fun _ _ => 0))).2 1 1 = Real.sqrt (612/7225) := by
  obtain ⟨p0, p1, p2, p3, p4, p5⟩ := c9c_stage0
  have hch := cgsColumnStep_char (Real.sqrt) 4 (castInput ℝ bMatT) 4
    ((List.range 1).foldl (cgsColumnStep Real.sqrt 4 (castInput ℝ bMatT) 4)
      ((fun _ _ => 0), (fun _ _ => 0))).1
    ((List.range 1).foldl (cgsColumnStep Real.sqrt 4 (castInput ℝ bMatT) 4)
      ((fun _ _ => 0), (fun _ _ => 0))).2 1
  have hfold : (List.range 2).foldl (cgsColumnStep Real.sqrt 4 (castInput ℝ bMatT) 4)
      ((fun _ _ => 0), (fun _ _ => 0)) =
      cgsColumnStep Real.sqrt 4 (castInput ℝ bMatT) 4
        ((List.range 1).foldl (cgsColumnStep Real.sqrt 4 (castInput ℝ bMatT) 4)
          ((fun _ _ => 0), (fun _ _ => 0))) 1 := by
    rw [show (2 : ℕ) = 1 + 1 from rfl, foldl_range_succ]
  have hs0sq : Real.sqrt (17/4) * Real.sqrt (17/4) = 17/4 :=
    Real.mul_self_sqrt (by norm_num)
  have hmul0 : ∀ a b : ℝ,
      a / Real.sqrt (17/4) * (b / Real.sqrt (17/4)) = a * b / (17/4) := by
    intro a b
    rw [div_mul_div_comm, hs0sq]
  have hpc0 : projCoeff1 4 (castInput ℝ bMatT) 4
      ((List.range 1).foldl (cgsColumnStep Real.sqrt 4 (castInput ℝ bMatT) 4)
        ((fun _ _ => 0), (fun _ _ => 0))).1 1 0 = (3/20) / Real.sqrt (17/4) := by
    unfold projCoeff1
    rw [c9_aColF_entry 1 (by norm_num)]
    rw [dotN_four, p1, p2, p3, p4]
    show _ * ((_ : ℚ) : ℝ) + _ * ((_ : ℚ) : ℝ) + _ * ((_ : ℚ) : ℝ)
      + _ * ((_ : ℚ) : ℝ) = _
    norm_num [castInput, bMatT, bMat]
    rw [div_mul_eq_mul_div]
    norm_num
  have hcc : ∀ k, correctedCol1 4 (castInput ℝ bMatT) 4
      ((List.range 1).foldl (cgsColumnStep Real.sqrt 4 (castInput ℝ bMatT) 4)
        ((fun _ _ => 0), (fun _ _ => 0))).1 1 k
      = (castInput ℝ bMatT).entry k 1 -
        ((List.range 1).foldl (cgsColumnStep Real.sqrt 4 (castInput ℝ bMatT) 4)
          ((fun _ _ => 0), (fun _ _ => 0))).1 k 0 * ((3/20) / Real.sqrt (17/4)) := by
    intro k
    unfold correctedCol1
    rw [Finset.sum_range_one, hpc0]
  have hcc0 : correctedCol1 4 (castInput ℝ bMatT) 4
      ((List.range 1).foldl (cgsColumnStep Real.sqrt 4 (castInput ℝ bMatT) 4)
        ((fun _ _ => 0), (fun _ _ => 0))).1 1 0 = -6/85 := by
    rw [hcc 0, p1, hmul0]
    show ((_ : ℚ) : ℝ) - _ = _
    norm_num [castInput, bMatT, bMat]
  have hcc1 : correctedCol1 4 (castInput ℝ bMatT) 4
      ((List.range 1).foldl (cgsColumnStep Real.sqrt 4 (castInput ℝ bMatT) 4)
        ((fun _ _ => 0), (fun _ _ => 0))).1 1 1 = 24/85 := by
    rw [hcc 1, p2, hmul0]
    show ((_ : ℚ) : ℝ) - _ = _
    norm_num [castInput, bMatT, bMat]
  have hcc2 : correctedCol1 4 (castInput ℝ bMatT) 4
      ((List.range 1).foldl (cgsColumnStep Real.sqrt 4 (castInput ℝ bMatT) 4)
        ((fun _ _ => 0), (fun _ _ => 0))).1 1 2 = 0 := by
    rw [hcc 2, p3]
    show ((_ : ℚ) : ℝ) - _ = _
    norm_num [castInput, bMatT, bMat]
  have hcc3 : correctedCol1 4 (castInput ℝ bMatT) 4
      ((List.range 1).foldl (cgsColumnStep Real.sqrt 4 (castInput ℝ bMatT) 4)
        ((fun _ _ => 0), (fun _ _ => 0))).1 1 3 = 0 := by
    rw [hcc 3, p4]
    show ((_ : ℚ) : ℝ) - _ = _
    norm_num [castInput, bMatT, bMat]
  have hsq : sumSq 4 (correctedCol1 4 (castInput ℝ bMatT) 4
      ((List.range 1).foldl (cgsColumnStep Real.sqrt 4 (castInput ℝ bMatT) 4)
        ((fun _ _ => 0), (fun _ _ => 0))).1 1) = 612/7225 := by
    rw [sumSq_four, hcc0, hcc1, hcc2, hcc3]
    norm_num
  refine ⟨?_, ?_, ?_, ?_, ?_, ?_, ?_, ?_, ?_, ?_, ?_⟩
  · rw [hfold, hch.2.1 0 0 (by norm_num)]; exact p1
  · rw [hfold, hch.2.1 1 0 (by norm_num)]; exact p2
  · rw [hfold, hch.2.1 2 0 (by norm_num)]; exact p3
  · rw [hfold, hch.2.1 3 0 (by norm_num)]; exact p4
  · rw [hfold, hch.1 0 (by norm_num), hsq, hcc0]
  · rw [hfold, hch.1 1 (by norm_num), hsq, hcc1]
  · rw [hfold, hch.1 2 (by norm_num), hsq, hcc2]
    norm_num
  · rw [hfold, hch.1 3 (by norm_num), hsq, hcc3]
    norm_num
  · intro j hj0 hj1 k
    rw [hfold, hch.2.1 k j hj1]
    exact p0 j hj0 k
  · rw [hfold, hch.2.2.2.2.2 0 0 (by norm_num) (by norm_num)]; exact p5
  · rw [hfold, hch.2.2.2.1, hsq]
    rw [dotN_four, hcc0, hcc1, hcc2, hcc3]
    have e0 : (castInput ℝ bMatT).entry 0 1 = 0 := by
      show ((_ : ℚ) : ℝ) = _; norm_num [bMatT, bMat]
    have e1 : (castInput ℝ bMatT).entry 1 1 = 3/10 := by
      show ((_ : ℚ) : ℝ) = _; norm_num [bMatT, bMat]
    have e2 : (castInput ℝ bMatT).entry 2 1 = 0 := by
      show ((_ : ℚ) : ℝ) = _; norm_num [bMatT, bMat]
    have e3 : (castInput ℝ bMatT).entry 3 1 = 0 := by
      show ((_ : ℚ) : ℝ) = _; norm_num [bMatT, bMat]
    rw [e0, e1, e2, e3]
    rw [show (0:ℝ) * (-6/85 / Real.sqrt (612/7225))
      + 3/10 * (24/85 / Real.sqrt (612/7225))
      + 0 * (0 / Real.sqrt (612/7225)) + 0 * (0 / Real.sqrt (612/7225))
      = (612/7225) / Real.sqrt (612/7225) by ring]
    exact Real.div_sqrt


theorem c9c_stage2 :
    ((List.range 3).foldl (cgsColumnStep Real.sqrt 4 (castInput ℝ bMatT) 4)
      ((fun _ _ => 0), (fun _ _ => 0))).1 0 0 = 2 / Real.sqrt (17/4)
    ∧ ((List.range 3).foldl (cgsColumnStep Real.sqrt 4 (castInput ℝ bMatT) 4)
      ((fun _ _ => 0), (fun _ _ => 0))).1 1 0 = (1/2) / Real.sqrt (17/4)
    ∧ ((List.range 3).foldl (cgsColumnStep Real.sqrt 4 (castInput ℝ bMatT) 4)
      ((fun _ _ => 0), (fun _ _ => 0))).1 2 0 = 0
    ∧ ((List.range 3).foldl (cgsColumnStep Real.sqrt 4 (castInput ℝ bMatT) 4)
      ((fun _ _ => 0), (fun _ _ => 0))).1 3 0 = 0
    ∧ ((List.range 3).foldl (cgsColumnStep Real.sqrt 4 (castInput ℝ bMatT) 4)
      ((fun _ _ => 0), (fun _ _ => 0))).1 0 1 = (-6/85) / Real.sqrt (612/7225)
    ∧ ((List.range 3).foldl (cgsColumnStep Real.sqrt 4 (castInput ℝ bMatT) 4)
      ((fun _ _ => 0), (fun _ _ => 0))).1 1 1 = (24/85) / Real.sqrt (612/7225)
    ∧ ((List.range 3).foldl (cgsColumnStep Real.sqrt 4 (castInput ℝ bMatT) 4)
      ((fun _ _ => 0), (fun _ _ => 0))).1 2 1 = 0
    ∧ ((List.range 3).foldl (cgsColumnStep Real.sqrt 4 (castInput ℝ bMatT) 4)
      ((fun _ _ => 0), (fun _ _ => 0))).1 3 1 = 0
    ∧ ((List.range 3).foldl (cgsColumnStep Real.sqrt 4 (castInput ℝ bMatT) 4)
      ((fun _ _ => 0), (fun _ _ => 0))).1 0 2 = 0
    ∧ ((List.range 3).foldl (cgsColumnStep Real.sqrt 4 (castInput ℝ bMatT) 4)
      ((fun _ _ => 0), (fun _ _ => 0))).1 1 2 = 0
    ∧ ((List.range 3).foldl (cgsColumnStep Real.sqrt 4 (castInput ℝ bMatT) 4)
      ((fun _ _ => 0), (fun _ _ => 0))).1 2 2 = 1
    ∧ ((List.range 3).foldl (cgsColumnStep Real.sqrt 4 (castInput ℝ bMatT) 4)
      ((fun _ _ => 0), (fun _ _ => 0))).1 3 2 = 0
    ∧ ((List.range 3).foldl (cgsColumnStep Real.sqrt 4 (castInput ℝ bMatT) 4)
      ((fun _ _ => 0), (fun _ _ => 0))).2 0 0 = Real.sqrt (17/4)
    ∧ ((List.range 3).foldl (cgsColumnStep Real.sqrt 4 (castInput ℝ bMatT) 4)
      ((fun _ _ => 0), (fun _ _ => 0))).2 1 1 = Real.sqrt (612/7225)
    ∧ ((List.range 3).foldl (cgsColumnStep Real.sqrt 4 (castInput ℝ bMatT) 4)
      ((fun _ _ => 0), (fun _ _ => 0))).2 2 2 = 7/10 := by
  obtain ⟨p1, p2, p3, p4, p5, p6, p7, p8, p0, pr0, pr1⟩ := c9c_stage1
  have hch := cgsColumnStep_char (Real.sqrt) 4 (castInput ℝ bMatT) 4
    ((List.range 2).foldl (cgsColumnStep Real.sqrt 4 (castInput ℝ bMatT) 4)
      ((fun _ _ => 0), (fun _ _ => 0))).1
    ((List.range 2).foldl (cgsColumnStep Real.sqrt 4 (castInput ℝ bMatT) 4)
      ((fun _ _ => 0), (fun _ _ => 0))).2 2
  have hfold : (List.range 3).foldl (cgsColumnStep Real.sqrt 4 (castInput ℝ bMatT) 4)
      ((fun _ _ => 0), (fun _ _ => 0)) =
      cgsColumnStep Real.sqrt 4 (castInput ℝ bMatT) 4
        ((List.range 2).foldl (cgsColumnStep Real.sqrt 4 (castInput ℝ bMatT) 4)
          ((fun _ _ => 0), (fun _ _ => 0))) 2 := by
    rw [show (3 : ℕ) = 2 + 1 from rfl, foldl_range_succ]
  have hs0sq : Real.sqrt (17/4) * Real.sqrt (17/4) = 17/4 :=
    Real.mul_self_sqrt (by norm_num)
  have hs1sq : Real.sqrt (612/7225) * Real.sqrt (612/7225) = 612/7225 :=
    Real.mul_self_sqrt (by norm_num)
  have hmul0 : ∀ a b : ℝ,
      a / Real.sqrt (17/4) * (b / Real.sqrt (17/4)) = a * b / (17/4) := by
    intro a b
    rw [div_mul_div_comm, hs0sq]
  have hmul1 : ∀ a b : ℝ,
      a / Real.sqrt (612/7225) * (b / Real.sqrt (612/7225)) = a * b / (612/7225) := by
    intro a b
    rw [div_mul_div_comm, hs1sq]
  have hpc0 : projCoeff1 4 (castInput ℝ bMatT) 4
      ((List.range 2).foldl (cgsColumnStep Real.sqrt 4 (castInput ℝ bMatT) 4)
        ((fun _ _ => 0), (fun _ _ => 0))).1 2 0 = (1/2) / Real.sqrt (17/4) := by
    unfold projCoeff1
    rw [c9_aColF_entry 2 (by norm_num)]
    rw [dotN_four, p1, p2, p3, p4]
    show _ * ((_ : ℚ) : ℝ) + _ * ((_ : ℚ) : ℝ) + _ * ((_ : ℚ) : ℝ)
      + _ * ((_ : ℚ) : ℝ) = _
    norm_num [castInput, bMatT, bMat]
  have hpc1 : projCoeff1 4 (castInput ℝ bMatT) 4
      ((List.range 2).foldl (cgsColumnStep Real.sqrt 4 (castInput ℝ bMatT) 4)
        ((fun _ _ => 0), (fun _ _ => 0))).1 2 1 = (24/85) / Real.sqrt (612/7225) := by
    unfold projCoeff1
    rw [c9_aColF_entry 2 (by norm_num)]
    rw [dotN_four, p5, p6, p7, p8]
    show _ * ((_ : ℚ) : ℝ) + _ * ((_ : ℚ) : ℝ) + _ * ((_ : ℚ) : ℝ)
      + _ * ((_ : ℚ) : ℝ) = _
    norm_num [castInput, bMatT, bMat]
  have hcc : ∀ k, correctedCol1 4 (castInput ℝ bMatT) 4
      ((List.range 2).foldl (cgsColumnStep Real.sqrt 4 (castInput ℝ bMatT) 4)
        ((fun _ _ => 0), (fun _ _ => 0))).1 2 k
      = (castInput ℝ bMatT).entry k 2 -
        (((List.range 2).foldl (cgsColumnStep Real.sqrt 4 (castInput ℝ bMatT) 4)
          ((fun _ _ => 0), (fun _ _ => 0))).1 k 0 * ((1/2) / Real.sqrt (17/4)) +
         ((List.range 2).foldl (cgsColumnStep Real.sqrt 4 (castInput ℝ bMatT) 4)
          ((fun _ _ => 0), (fun _ _ => 0))).1 k 1 * ((24/85) / Real.sqrt (612/7225))) := by
    intro k
    unfold correctedCol1
    rw [Finset.sum_range_succ, Finset.sum_range_one, hpc0, hpc1]
  have hcc0 : correctedCol1 4 (castInput ℝ bMatT) 4
      ((List.range 2).foldl (cgsColumnStep Real.sqrt 4 (castInput ℝ bMatT) 4)
        ((fun _ _ => 0), (fun _ _ => 0))).1 2 0 = 0 := by
    rw [hcc 0, p1, p5, hmul0, hmul1]
    show ((_ : ℚ) : ℝ) - _ = _
    norm_num [castInput, bMatT, bMat]
  have hcc1 : correctedCol1 4 (castInput ℝ bMatT) 4
      ((List.range 2).foldl (cgsColumnStep Real.sqrt 4 (castInput ℝ bMatT) 4)
        ((fun _ _ => 0), (fun _ _ => 0))).1 2 1 = 0 := by
    rw [hcc 1, p2, p6, hmul0, hmul1]
    show ((_ : ℚ) : ℝ) - _ = _
    norm_num [castInput, bMatT, bMat]
  have hcc2 : correctedCol1 4 (castInput ℝ bMatT) 4
      ((List.range 2).foldl (cgsColumnStep Real.sqrt 4 (castInput ℝ bMatT) 4)
        ((fun _ _ => 0), (fun _ _ => 0))).1 2 2 = 7/10 := by
    rw [hcc 2, p3, p7]
    show ((_ : ℚ) : ℝ) - _ = _
    norm_num [castInput, bMatT, bMat]
  have hcc3 : correctedCol1 4 (castInput ℝ bMatT) 4
      ((List.range 2).foldl (cgsColumnStep Real.sqrt 4 (castInput ℝ bMatT) 4)
        ((fun _ _ => 0), (fun _ _ => 0))).1 2 3 = 0 := by
    rw [hcc 3, p4, p8]
    show ((_ : ℚ) : ℝ) - _ = _
    norm_num [castInput, bMatT, bMat]
  have hsq : sumSq 4 (correctedCol1 4 (castInput ℝ bMatT) 4
      ((List.range 2).foldl (cgsColumnStep Real.sqrt 4 (castInput ℝ bMatT) 4)
        ((fun _ _ => 0), (fun _ _ => 0))).1 2) = 49/100 := by
    rw [sumSq_four, hcc0, hcc1, hcc2, hcc3]
    norm_num
  have h710 : Real.sqrt (49/100) = 7/10 := by
    rw [show (49:ℝ)/100 = (7/10)^2 by norm_num, Real.sqrt_sq (by norm_num)]
  refine ⟨?_, ?_, ?_, ?_, ?_, ?_, ?_, ?_, ?_, ?_, ?_, ?_, ?_, ?_, ?_⟩
  · rw [hfold, hch.2.1 0 0 (by norm_num)]; exact p1
  · rw [hfold, hch.2.1 1 0 (by norm_num)]; exact p2
  · rw [hfold, hch.2.1 2 0 (by norm_num)]; exact p3
  · rw [hfold, hch.2.1 3 0 (by norm_num)]; exact p4
  · rw [hfold, hch.2.1 0 1 (by norm_num)]; exact p5
  · rw [hfold, hch.2.1 1 1 (by norm_num)]; exact p6
  · rw [hfold, hch.2.1 2 1 (by norm_num)]; exact p7
  · rw [hfold, hch.2.1 3 1 (by norm_num)]; exact p8
  · rw [hfold, hch.1 0 (by norm_num), hsq, hcc0, h710]
    norm_num
  · rw [hfold, hch.1 1 (by norm_num), hsq, hcc1, h710]
    norm_num
  · rw [hfold, hch.1 2 (by norm_num), hsq, hcc2, h710]
    norm_num
  · rw [hfold, hch.1 3 (by norm_num), hsq, hcc3, h710]
    norm_num
  · rw [hfold, hch.2.2.2.2.2 0 0 (by norm_num) (by norm_num)]; exact pr0
  · rw [hfold, hch.2.2.2.2.2 1 1 (by norm_num) (by norm_num)]; exact pr1
  · rw [hfold, hch.2.2.2.1, hsq, h710]
    rw [dotN_four, hcc0, hcc1, hcc2, hcc3]
    show ((_ : ℚ) : ℝ) * _ + ((_ : ℚ) : ℝ) * _ + ((_ : ℚ) : ℝ) * _
      + ((_ : ℚ) : ℝ) * _ = _
    norm_num [castInput, bMatT, bMat]


theorem c9c_final :
    ((List.range 4).foldl (cgsColumnStep Real.sqrt 4 (castInput ℝ bMatT) 4)
      ((fun _ _ => 0), (fun _ _ => 0))).2 0 0 = Real.sqrt (17/4)
    ∧ ((List.range 4).foldl (cgsColumnStep Real.sqrt 4 (castInput ℝ bMatT) 4)
      ((fun _ _ => 0), (fun _ _ => 0))).2 1 1 = Real.sqrt (612/7225)
    ∧ ((List.range 4).foldl (cgsColumnStep Real.sqrt 4 (castInput ℝ bMatT) 4)
      ((fun _ _ => 0), (fun _ _ => 0))).2 2 2 = 7/10
    ∧ ((List.range 4).foldl (cgsColumnStep Real.sqrt 4 (castInput ℝ bMatT) 4)
      ((fun _ _ => 0), (fun _ _ => 0))).2 3 3 = 3 := by
  obtain ⟨q1, q2, q3, q4, q5, q6, q7, q8, q9, q10, q11, q12, r0, r1, r2⟩ :=
    c9c_stage2
  have hch := cgsColumnStep_char (Real.sqrt) 4 (castInput ℝ bMatT) 4
    ((List.range 3).foldl (cgsColumnStep Real.sqrt 4 (castInput ℝ bMatT) 4)
      ((fun _ _ => 0), (fun _ _ => 0))).1
    ((List.range 3).foldl (cgsColumnStep Real.sqrt 4 (castInput ℝ bMatT) 4)
      ((fun _ _ => 0), (fun _ _ => 0))).2 3
  have hfold : (List.range 4).foldl (cgsColumnStep Real.sqrt 4 (castInput ℝ bMatT) 4)
      ((fun _ _ => 0), (fun _ _ => 0)) =
      cgsColumnStep Real.sqrt 4 (castInput ℝ bMatT) 4
        ((List.range 3).foldl (cgsColumnStep Real.sqrt 4 (castInput ℝ bMatT) 4)
          ((fun _ _ => 0), (fun _ _ => 0))) 3 := by
    rw [show (4 : ℕ) = 3 + 1 from rfl, foldl_range_succ]
  have hpc0 : projCoeff1 4 (castInput ℝ bMatT) 4
      ((List.range 3).foldl (cgsColumnStep Real.sqrt 4 (castInput ℝ bMatT) 4)
        ((fun _ _ => 0), (fun _ _ => 0))).1 3 0 = 0 := by
    unfold projCoeff1
    rw [c9_aColF_entry 3 (by norm_num)]
    rw [dotN_four, q1, q2, q3, q4]
    show _ * ((_ : ℚ) : ℝ) + _ * ((_ : ℚ) : ℝ) + _ * ((_ : ℚ) : ℝ)
      + _ * ((_ : ℚ) : ℝ) = _
    norm_num [castInput, bMatT, bMat]
  have hpc1 : projCoeff1 4 (castInput ℝ bMatT) 4
      ((List.range 3).foldl (cgsColumnStep Real.sqrt 4 (castInput ℝ bMatT) 4)
        ((fun _ _ => 0), (fun _ _ => 0))).1 3 1 = 0 := by
    unfold projCoeff1
    rw [c9_aColF_entry 3 (by norm_num)]
    rw [dotN_four, q5, q6, q7, q8]
    show _ * ((_ : ℚ) : ℝ) + _ * ((_ : ℚ) : ℝ) + _ * ((_ : ℚ) : ℝ)
      + _ * ((_ : ℚ) : ℝ) = _
    norm_num [castInput, bMatT, bMat]
  have hpc2 : projCoeff1 4 (castInput ℝ bMatT) 4
      ((List.range 3).foldl (cgsColumnStep Real.sqrt 4 (castInput ℝ bMatT) 4)
        ((fun _ _ => 0), (fun _ _ => 0))).1 3 2 = 0 := by
    unfold projCoeff1
    rw [c9_aColF_entry 3 (by norm_num)]
    rw [dotN_four, q9, q10, q11, q12]
    show _ * ((_ : ℚ) : ℝ) + _ * ((_ : ℚ) : ℝ) + _ * ((_ : ℚ) : ℝ)
      + _ * ((_ : ℚ) : ℝ) = _
    norm_num [castInput, bMatT, bMat]
  have hcc : ∀ k, correctedCol1 4 (castInput ℝ bMatT) 4
      ((List.range 3).foldl (cgsColumnStep Real.sqrt 4 (castInput ℝ bMatT) 4)
        ((fun _ _ => 0), (fun _ _ => 0))).1 3 k
      = (castInput ℝ bMatT).entry k 3 := by
    intro k
    unfold correctedCol1
    rw [Finset.sum_range_succ, Finset.sum_range_succ, Finset.sum_range_one,
      hpc0, hpc1, hpc2]
    ring
  have hcc0 : correctedCol1 4 (castInput ℝ bMatT) 4
      ((List.range 3).foldl (cgsColumnStep Real.sqrt 4 (castInput ℝ bMatT) 4)
        ((fun _ _ => 0), (fun _ _ => 0))).1 3 0 = 0 := by
    rw [hcc 0]
    show ((_ : ℚ) : ℝ) = _
    norm_num [castInput, bMatT, bMat]
  have hcc1 : correctedCol1 4 (castInput ℝ bMatT) 4
      ((List.range 3).foldl (cgsColumnStep Real.sqrt 4 (castInput ℝ bMatT) 4)
        ((fun _ _ => 0), (fun _ _ => 0))).1 3 1 = 0 := by
    rw [hcc 1]
    show ((_ : ℚ) : ℝ) = _
    norm_num [castInput, bMatT, bMat]
  have hcc2 : correctedCol1 4 (castInput ℝ bMatT) 4
      ((List.range 3).foldl (cgsColumnStep Real.sqrt 4 (castInput ℝ bMatT) 4)
        ((fun _ _ => 0), (fun _ _ => 0))).1 3 2 = 0 := by
    rw [hcc 2]
    show ((_ : ℚ) : ℝ) = _
    norm_num [castInput, bMatT, bMat]
  have hcc3 : correctedCol1 4 (castInput ℝ bMatT) 4
      ((List.range 3).foldl (cgsColumnStep Real.sqrt 4 (castInput ℝ bMatT) 4)
        ((fun _ _ => 0), (fun _ _ => 0))).1 3 3 = 3 := by
    rw [hcc 3]
    show ((_ : ℚ) : ℝ) = _
    norm_num [castInput, bMatT, bMat]
  have hsq : sumSq 4 (correctedCol1 4 (castInput ℝ bMatT) 4
      ((List.range 3).foldl (cgsColumnStep Real.sqrt 4 (castInput ℝ bMatT) 4)
        ((fun _ _ => 0), (fun _ _ => 0))).1 3) = 9 := by
    rw [sumSq_four, hcc0, hcc1, hcc2, hcc3]
    norm_num
  have h3 : Real.sqrt 9 = 3 := by
    rw [show (9:ℝ) = 3^2 by norm_num, Real.sqrt_sq (by norm_num)]
  refine ⟨?_, ?_, ?_, ?_⟩
  · rw [hfold, hch.2.2.2.2.2 0 0 (by norm_num) (by norm_num)]; exact r0
  · rw [hfold, hch.2.2.2.2.2 1 1 (by norm_num) (by norm_num)]; exact r1
  · rw [hfold, hch.2.2.2.2.2 2 2 (by norm_num) (by norm_num)]; exact r2
  · rw [hfold, hch.2.2.2.1, hsq, h3]
    rw [dotN_four, hcc0, hcc1, hcc2, hcc3]
    show ((_ : ℚ) : ℝ) * _ + ((_ : ℚ) : ℝ) * _ + ((_ : ℚ) : ℝ) * _
      + ((_ : ℚ) : ℝ) * _ = _
    norm_num [castInput, bMatT, bMat]


/-- C9 (amended): the claimed diagonal [2.0615528128088303, 0.2910427500435996,
0.7, 3.0] is not produced on the matrix whose *columns* are [2,0,0,0],
[0.5,0.3,1,0], [0,0,0.7,0], [0,0,0,3] (see the counterexample theorem:
there R[0,0] = 2), but it is produced by both the CGS and the MGS engine on
the *transpose* of that matrix.  On the transposed input both engines
compute the same R diagonal, exactly [sqrt(17/4), sqrt(612/7225), 7/10, 3],
and the first two values are within 1e-12 of the claimed decimals (7/10 and
3 match exactly). -/
theorem c9_transposed_diag_amended :
    okElim 0 (fun e => e.r 0 0)
      (ClassicalGramSchmidt.compute Real.sqrt
        (ClassicalGramSchmidt.from_shape 4 4 false) (castInput ℝ bMatT))
      = Real.sqrt (17/4)
    ∧ okElim 0 (fun e => e.r 1 1)
      (ClassicalGramSchmidt.compute Real.sqrt
        (ClassicalGramSchmidt.from_shape 4 4 false) (castInput ℝ bMatT))
      = Real.sqrt (612/7225)
    ∧ okElim 0 (fun e => e.r 2 2)
      (ClassicalGramSchmidt.compute Real.sqrt
        (ClassicalGramSchmidt.from_shape 4 4 false) (castInput ℝ bMatT))
      = 7/10
    ∧ okElim 0 (fun e => e.r 3 3)
      (ClassicalGramSchmidt.compute Real.sqrt
        (ClassicalGramSchmidt.from_shape 4 4 false) (castInput ℝ bMatT))
      = 3
    ∧ (ModifiedGramSchmidt.compute Real.sqrt
        (ModifiedGramSchmidt.from_shape 4 4 false) (castInput ℝ bMatT)).r 0 0
      = Real.sqrt (17/4)
    ∧ (ModifiedGramSchmidt.compute Real.sqrt
        (ModifiedGramSchmidt.from_shape 4 4 false) (castInput ℝ bMatT)).r 1 1
      = Real.sqrt (612/7225)
    ∧ (ModifiedGramSchmidt.compute Real.sqrt
        (ModifiedGramSchmidt.from_shape 4 4 false) (castInput ℝ bMatT)).r 2 2
      = 7/10
    ∧ (ModifiedGramSchmidt.compute Real.sqrt
        (ModifiedGramSchmidt.from_shape 4 4 false) (castInput ℝ bMatT)).r 3 3
      = 3
    ∧ |Real.sqrt (17/4) - 2.0615528128088303| < 1e-12
    ∧ |Real.sqrt (612/7225) - 0.2910427500435996| < 1e-12 := by
  obtain ⟨hc0, hc1, hc2, hc3⟩ := c9c_final
  obtain ⟨hm0, hm1, hm2, hm3⟩ := c9m_final
  have hcgs : ∀ i j : ℕ, okElim 0 (fun e => e.r i j)
      (ClassicalGramSchmidt.compute Real.sqrt
        (ClassicalGramSchmidt.from_shape 4 4 false) (castInput ℝ bMatT))
      = ((List.range 4).foldl (cgsColumnStep Real.sqrt 4 (castInput ℝ bMatT) 4)
        ((fun _ _ => 0), (fun _ _ => 0))).2 i j := fun i j => rfl
  have hmgs : ∀ i j : ℕ, (ModifiedGramSchmidt.compute Real.sqrt
      (ModifiedGramSchmidt.from_shape 4 4 false) (castInput ℝ bMatT)).r i j
      = ((List.range 4).foldl (mgsColumnStep Real.sqrt 4 (castInput ℝ bMatT))
        ((fun _ _ => 0), (fun _ _ => 0))).2 i j := fun i j => rfl
  have hb0 : |Real.sqrt (17/4) - 2.0615528128088303| < (1e-12 : ℝ) := by
    rw [abs_sub_lt_iff]
    constructor
    · have h := (Real.sqrt_lt' (x := (17:ℝ)/4)
        (y := 2.0615528128088303 + 1e-12) (by norm_num)).mpr (by norm_num)
      linarith
    · have h := (Real.lt_sqrt (x := 2.0615528128088303 - 1e-12)
        (y := (17:ℝ)/4) (by norm_num)).mpr (by norm_num)
      linarith
  have hb1 : |Real.sqrt (612/7225) - 0.2910427500435996| < (1e-12 : ℝ) := by
    rw [abs_sub_lt_iff]
    constructor
    · have h := (Real.sqrt_lt' (x := (612:ℝ)/7225)
        (y := 0.2910427500435996 + 1e-12) (by norm_num)).mpr (by norm_num)
      linarith
    · have h := (Real.lt_sqrt (x := 0.2910427500435996 - 1e-12)
        (y := (612:ℝ)/7225) (by norm_num)).mpr (by norm_num)
      linarith
  exact ⟨(hcgs 0 0).trans hc0, (hcgs 1 1).trans hc1, (hcgs 2 2).trans hc2,
    (hcgs 3 3).trans hc3, (hmgs 0 0).trans hm0, (hmgs 1 1).trans hm1,
    (hmgs 2 2).trans hm2, (hmgs 3 3).trans hm3, hb0, hb1⟩

end GS
